import Mathlib

/-!
Verification of the slima_agents pipeline core against its specification.

The Python sources are shallowly embedded as Lean definitions:

* Python strings are Lean `String`s, or `List Char` where the proofs need
  character-level reasoning (the tracker render/parse pair).
* `async` methods have no concurrency in their bodies beyond a per-operation
  lock; they are embedded as pure state transformers.  Wall-clock reads
  (`_iso_now`, duration arithmetic) enter as explicit parameters.
* Remote-store and subprocess effects are embedded as event traces or as
  scripted outcome streams.
* Fallible code returns `Option`/`Except`.
-/

namespace SlimaAgents

/-! ## Character-level string helpers shared by the tracker embedding -/

/-- Whitespace test backing the embedding of Python `str.strip` (the common
ASCII whitespace characters; exotic Unicode whitespace is outside the model). -/
def isWS (c : Char) : Bool :=
  c = ' ' || c = '\t' || c = '\n' || c = '\r' || c = '\x0b' || c = '\x0c'

/-- Remove trailing whitespace characters. -/
def trimRight (l : List Char) : List Char :=
  (l.reverse.dropWhile isWS).reverse

/-- Embedding of Python `str.strip()` on a character list. -/
def trimChars (l : List Char) : List Char :=
  trimRight (l.dropWhile isWS)

/-- Decimal digits of a natural number, most significant first, as characters
(the digit part of Python `str(int)`). -/
def natDigits (n : Nat) : List Char :=
  if _h : n < 10 then [Nat.digitChar n]
  else natDigits (n / 10) ++ [Nat.digitChar (n % 10)]
decreasing_by exact Nat.div_lt_self (by omega) (by omega)

/-- Embedding of Python `str(int)`. -/
def intChars (i : Int) : List Char :=
  if i < 0 then '-' :: natDigits i.natAbs else natDigits i.natAbs

/-- Value of a list of decimal digit characters; `none` when the list is empty
or contains a non-digit (where Python `int` would raise `ValueError`). -/
def digitsVal (l : List Char) : Option Nat :=
  if l = [] then none
  else if l.all (·.isDigit) then
    some (l.foldl (fun acc c => 10 * acc + (c.toNat - 48)) 0)
  else none

/-- Embedding of Python `int(s)` on an already-stripped string (optional sign,
then decimal digits; underscore separators and non-ASCII digits, which Python
would also accept, are outside the model). -/
def intParse (l : List Char) : Option Int :=
  match l with
  | [] => none
  | c :: rest =>
    if c = '-' then (digitsVal rest).map (fun n => -(n : Int))
    else if c = '+' then (digitsVal rest).map (fun n => (n : Int))
    else (digitsVal (c :: rest)).map (fun n => (n : Int))

/-! ## DynamicContext (src/slima_agents/pipeline/context.py)

The section store `_data` (a Python dict of strings with `.get(s, "")`
reads) is embedded as a total function `String → String`; the per-operation
asyncio lock serialises access and is not part of the state. -/

structure DynamicContext where
  allowed_sections : List String
  data : String → String
  user_prompt : String

/-- Embedding of Python `dict.fromkeys` de-duplication (keeps the first
occurrence of each element). -/
def pyDedupGo (seen : List String) : List String → List String
  | [] => []
  | a :: rest => if a ∈ seen then pyDedupGo seen rest else a :: pyDedupGo (a :: seen) rest

def pyDedup (l : List String) : List String := pyDedupGo [] l

/-- `DynamicContext.__init__`: book_structure is always appended and the list
de-duplicated keeping first occurrences. -/
def DynamicContext.init (allowed_sections : List String) : DynamicContext :=
  ⟨pyDedup (allowed_sections ++ ["book_structure"]), fun _ => "", ""⟩

/-- The error value returned for an undeclared section name. -/
def unknownSectionMsg (allowed : List String) (sec : String) : String :=
  "Unknown section: " ++ sec ++ ". Valid: " ++ String.intercalate ", " allowed

def DynamicContext.read (ctx : DynamicContext) (sec : String) : String :=
  if sec ∉ ctx.allowed_sections then unknownSectionMsg ctx.allowed_sections sec
  else ctx.data sec

def DynamicContext.write (ctx : DynamicContext) (sec content : String) :
    DynamicContext × String :=
  if sec ∉ ctx.allowed_sections then (ctx, unknownSectionMsg ctx.allowed_sections sec)
  else (⟨ctx.allowed_sections, fun x => if x = sec then content else ctx.data x,
         ctx.user_prompt⟩,
        "Updated context section \x27" ++ sec ++ "\x27")

def DynamicContext.append (ctx : DynamicContext) (sec content : String) :
    DynamicContext × String :=
  if sec ∉ ctx.allowed_sections then (ctx, unknownSectionMsg ctx.allowed_sections sec)
  else
    let current := ctx.data sec
    let updated := if current ≠ "" then current ++ "\n" ++ content else content
    (⟨ctx.allowed_sections, fun x => if x = sec then updated else ctx.data x,
      ctx.user_prompt⟩,
     "Appended to context section \x27" ++ sec ++ "\x27")

/-- JSON values appearing in a context snapshot: the string sections and the
string-list `_allowed_sections` entry that `to_snapshot` emits. -/
inductive JVal where
  | str (s : String)
  | arr (l : List String)
deriving DecidableEq

/-- A JSON object, embedded as an insertion-ordered association list.  Python
dict keys are unique; lookup takes the first match. -/
abbrev Snapshot := List (String × JVal)

def lookupKey (d : Snapshot) (k : String) : Option JVal :=
  (d.find? (fun kv => kv.1 = k)).map (·.2)

def DynamicContext.to_snapshot (ctx : DynamicContext) : Snapshot :=
  ("_allowed_sections", JVal.arr ctx.allowed_sections) ::
    ((if ctx.user_prompt ≠ "" then [("user_prompt", JVal.str ctx.user_prompt)] else []) ++
      ctx.allowed_sections.filterMap (fun sec =>
        if ctx.data sec ≠ "" then some (sec, JVal.str (ctx.data sec)) else none))

/-- Embedding of `DynamicContext.from_snapshot`.  Section and `user_prompt`
values written by `to_snapshot` are strings; a list value in those positions
(which Python would assign as-is) is outside the model and leaves the field
unchanged (resp. empty). -/
def DynamicContext.from_snapshot (ctx : DynamicContext) (d : Snapshot) : DynamicContext :=
  let allowed :=
    match lookupKey d "_allowed_sections" with
    | some (JVal.arr l) => l
    | _ => ctx.allowed_sections
  let up :=
    match lookupKey d "user_prompt" with
    | some (JVal.str s) => s
    | _ => ""
  ⟨allowed,
   fun x =>
     if x ∈ allowed then
       match lookupKey d x with
       | some (JVal.str v) => v
       | _ => ctx.data x
     else ctx.data x,
   up⟩

/-! ## WorldContext (src/slima_agents/agents/context.py)

A dataclass with one string attribute per section; `getattr`/`setattr` over
the declared `SECTIONS` tuple are embedded as explicit matches. -/

structure WorldContext where
  user_prompt : String := ""
  overview : String := ""
  cosmology : String := ""
  geography : String := ""
  history : String := ""
  peoples : String := ""
  cultures : String := ""
  power_structures : String := ""
  characters : String := ""
  items_bestiary : String := ""
  narrative : String := ""
  naming_conventions : String := ""
  book_structure : String := ""

def WorldContext.SECTIONS : List String :=
  ["overview", "cosmology", "geography", "history", "peoples", "cultures",
   "power_structures", "characters", "items_bestiary", "narrative",
   "naming_conventions", "book_structure"]

/-- `getattr(self, section)` restricted to the declared sections. -/
def worldGet (c : WorldContext) (sec : String) : String :=
  if sec = "overview" then c.overview
  else if sec = "cosmology" then c.cosmology
  else if sec = "geography" then c.geography
  else if sec = "history" then c.history
  else if sec = "peoples" then c.peoples
  else if sec = "cultures" then c.cultures
  else if sec = "power_structures" then c.power_structures
  else if sec = "characters" then c.characters
  else if sec = "items_bestiary" then c.items_bestiary
  else if sec = "narrative" then c.narrative
  else if sec = "naming_conventions" then c.naming_conventions
  else if sec = "book_structure" then c.book_structure
  else ""

/-- `setattr(self, section, v)` restricted to the declared sections. -/
def worldSet (c : WorldContext) (sec v : String) : WorldContext :=
  if sec = "overview" then { c with overview := v }
  else if sec = "cosmology" then { c with cosmology := v }
  else if sec = "geography" then { c with geography := v }
  else if sec = "history" then { c with history := v }
  else if sec = "peoples" then { c with peoples := v }
  else if sec = "cultures" then { c with cultures := v }
  else if sec = "power_structures" then { c with power_structures := v }
  else if sec = "characters" then { c with characters := v }
  else if sec = "items_bestiary" then { c with items_bestiary := v }
  else if sec = "narrative" then { c with narrative := v }
  else if sec = "naming_conventions" then { c with naming_conventions := v }
  else if sec = "book_structure" then { c with book_structure := v }
  else c

def WorldContext.read (c : WorldContext) (sec : String) : String :=
  if sec ∉ WorldContext.SECTIONS then unknownSectionMsg WorldContext.SECTIONS sec
  else worldGet c sec

def WorldContext.write (c : WorldContext) (sec content : String) :
    WorldContext × String :=
  if sec ∉ WorldContext.SECTIONS then (c, unknownSectionMsg WorldContext.SECTIONS sec)
  else (worldSet c sec content, "Updated context section \x27" ++ sec ++ "\x27")

def WorldContext.append (c : WorldContext) (sec content : String) :
    WorldContext × String :=
  if sec ∉ WorldContext.SECTIONS then (c, unknownSectionMsg WorldContext.SECTIONS sec)
  else
    let current := worldGet c sec
    let updated := if current ≠ "" then current ++ "\n" ++ content else content
    (worldSet c sec updated, "Appended to context section \x27" ++ sec ++ "\x27")

/-! ## ClaudeRunner (src/slima_agents/agents/claude_runner.py)

The subprocess is scripted: `outcomes k` is what `_read_stream` returns
(result text, turn count, timed-out flag) for the `k`-th spawned attempt.
Cancellation (which only kills the child and re-raises) is outside the pure
model. -/

structure StreamOutcome where
  text : String
  num_turns : Nat
  timedOut : Bool
deriving DecidableEq

def MAX_RETRIES : Nat := 2

def timedOutMsg (timeout : Nat) : String :=
  "Timed out after " ++ toString timeout ++ "s"

/-- The retry loop of `ClaudeRunner.run` over the remaining attempt indices,
threading `last_error` and counting subprocess spawns.  A timeout with
`retry_on_timeout = False` breaks out of the loop and the trailing
`raise last_error` surfaces the timeout error. -/
def claudeRunFrom (outcomes : Nat → StreamOutcome) (retry_on_timeout : Bool)
    (timeout : Nat) :
    List Nat → Option String → Nat → Except String String × Nat
  | [], lastError, spawned =>
    (.error (lastError.getD "All retries exhausted"), spawned)
  | a :: rest, _lastError, spawned =>
    let o := outcomes a
    if o.timedOut then
      if retry_on_timeout then
        claudeRunFrom outcomes retry_on_timeout timeout rest
          (some (timedOutMsg timeout)) (spawned + 1)
      else (.error (timedOutMsg timeout), spawned + 1)
    else if o.text = "" then
      claudeRunFrom outcomes retry_on_timeout timeout rest
        (some "Empty result") (spawned + 1)
    else (.ok o.text, spawned + 1)

/-- Embedding of `ClaudeRunner.run`: up to `MAX_RETRIES` attempts (indices
1, 2), returning the result text or the last error, plus the number of
subprocesses spawned. -/
def claudeRun (retry_on_timeout : Bool) (timeout : Nat)
    (outcomes : Nat → StreamOutcome) : Except String String × Nat :=
  claudeRunFrom outcomes retry_on_timeout timeout
    (List.range' 1 MAX_RETRIES) none 0

/-! ## BaseAgent (src/slima_agents/agents/base.py) -/

/-- Result returned by `BaseAgent.run`.  `summary`, `full_output` and
`timed_out` are the fields of the checked-in `AgentResult`.  `session_id` is
modelled from the spec: the WorkerInvocationResult carries an opaque
resumable session identifier; the orchestrators and tests/test_session_resume.py
consume `AgentResult.session_id`, which the checked-in revision of base.py
does not yet store. -/
structure AgentResult where
  summary : String
  full_output : String
  timed_out : Bool
  session_id : String
deriving DecidableEq

def PREFIXES : List String := ["mcp__slima__", "mcp__claude_ai_Slima__"]

def bothTools (tool : String) : List String := PREFIXES.map (fun p => p ++ tool)

def SLIMA_MCP_TOOLS : List String :=
  bothTools "create_file" ++ bothTools "write_file" ++ bothTools "read_file" ++
    bothTools "edit_file" ++ bothTools "get_book_structure" ++
    bothTools "search_content"

def SLIMA_MCP_READ_TOOLS : List String :=
  bothTools "read_file" ++ bothTools "get_book_structure" ++
    bothTools "search_content"

/-- Embedding of the Python substring test `needle in hay`. -/
def containsSub (needle hay : String) : Bool :=
  decide (needle.toList <:+: hay.toList)

/-- `BaseAgent._has_write_tools`: any tool whose name contains "create" or
"write". -/
def hasWriteTools (allowed_tools : List String) : Bool :=
  allowed_tools.any (fun t => containsSub "create" t || containsSub "write" t)

/-- Embedding of `BaseAgent.run`: the runner is invoked with
`retry_on_timeout = not has_write`; a `ClaudeRunnerError` whose message
contains "Timed out" is converted, for a write-capable agent, into a
partial-success result with `timed_out = True`; every other error re-raises. -/
def agentRun (allowed_tools : List String) (timeout : Nat)
    (outcomes : Nat → StreamOutcome) : Except String AgentResult :=
  let has_write := hasWriteTools allowed_tools
  match (claudeRun (!has_write) timeout outcomes).1 with
  | .ok output => .ok ⟨String.mk (output.data.take 200), output, false, ""⟩
  | .error e =>
    if containsSub "Timed out" e && has_write then
      .ok ⟨"(timeout after " ++ toString timeout ++
             "s — partial completion, files already saved)", "", true, ""⟩
    else .error e

/-- Stage-level outcome of `GenericOrchestrator._run_writer_stage`: the stage
re-raises an agent exception and otherwise runs to completion and is marked
completed, timed out or not. -/
def runWriterStageStatus (agentOutcome : Except String AgentResult) :
    Except String String :=
  match agentOutcome with
  | .error e => .error e
  | .ok _ => .ok "completed"

/-! ## GenericOrchestrator._run_validation (src/slima_agents/pipeline/orchestrator.py) -/

/-- Parameters of one WriterAgent sub-invocation issued by
`_run_validation`. -/
structure ValidationInvocation where
  stage_name : String
  resume_session : String
deriving DecidableEq

/-- Embedding of `GenericOrchestrator._run_validation` given the result the
R1 sub-invocation produced: R1 is issued with no resume session, R2 is
constructed with `resume_session = r1_result.session_id` unconditionally, and
the method raises no error of its own (second component). -/
def runValidation (r1_result : AgentResult) :
    List ValidationInvocation × Option String :=
  ([⟨"validation_r1", ""⟩, ⟨"validation_r2", r1_result.session_id⟩], none)

/-! ## OrchestratorAgent._run_phase (src/slima_agents/worldbuild/orchestrator.py) -/

/-- Outcome of one member agent of a fanned-out phase: a returned result or a
raised exception. -/
inductive MemberOutcome where
  | ok (r : AgentResult)
  | exc (e : String)
deriving DecidableEq

/-- Embedding of `OrchestratorAgent._run_phase` over scripted member outcomes
(member name, outcome).  `asyncio.gather` with return_exceptions set to True
lets every member run to completion and collects results and exceptions in
order; the result loop then prints each exception and keeps only the
successful results.  The codomain is `Except` to record what the method can
raise: it always returns normally, with the list of members that ran and
their successful results. -/
def runPhase (outcomes : List (String × MemberOutcome)) :
    Except String (List String × List AgentResult) :=
  let results := outcomes
  let agent_results := results.foldl (fun acc o =>
    match o.2 with
    | MemberOutcome.ok r => acc ++ [r]
    | MemberOutcome.exc _ => acc) []
  .ok (results.map (·.1), agent_results)

/-! ## OrchestratorAgent._save_context_snapshot (worldbuild) and WorldContext
attributes (C9) -/

/-- Attribute names defined on the `WorldContext` class in
src/slima_agents/agents/context.py: the dataclass fields and the methods. -/
def worldContextAttrs : List String :=
  ["user_prompt", "overview", "cosmology", "geography", "history", "peoples",
   "cultures", "power_structures", "characters", "items_bestiary", "narrative",
   "naming_conventions", "book_structure", "_lock", "SECTIONS",
   "read", "write", "append", "serialize_for_prompt"]

/-- Remote writes attempted by `_save_context_snapshot` and the exception it
lets escape. -/
structure SnapshotSaveResult where
  writes : List String
  raised : Option String
deriving DecidableEq

/-- Embedding of the worldbuild `OrchestratorAgent._save_context_snapshot`:
the body first calls `self.context.to_snapshot()`; attribute lookup on
`WorldContext` succeeds only for the attributes the class defines, so a
missing attribute raises `AttributeError` inside the `try`, and the
`except Exception` arm swallows it after logging.  Only on the attribute
being present does the method reach the remote write of
agent-log/context-snapshot.json. -/
def saveContextSnapshotWB : SnapshotSaveResult :=
  if "to_snapshot" ∈ worldContextAttrs then
    ⟨["agent-log/context-snapshot.json"], none⟩
  else ⟨[], none⟩

/-! ## PipelineTracker (src/slima_agents/tracker.py)

Strings are embedded at character level because the render/parse round trip
needs character reasoning.  `duration_s` is a Python float produced by
`round(delta, 1)`; it is embedded as a number of tenths of a second
(`duration_ts : Nat`), whose rendering `str(float)` is the usual
one-decimal form (negative clock skew, which would need a sign, is outside
the model).  The `slima` client and `book_token` fields take no part in the
state machine or the text format and are omitted. -/

structure StageRecord where
  number : Int
  name : List Char
  status : List Char
  started_at : List Char
  completed_at : List Char
  duration_ts : Nat
  notes : List Char
deriving DecidableEq

structure PipelineTracker where
  pipeline_name : List Char
  prompt : List Char
  status : List Char
  started_at : List Char
  stages : List StageRecord
deriving DecidableEq

/-- `PipelineTracker.define_stages`: one pending record per (number, name). -/
def define_stages (stage_defs : List (Int × List Char)) : List StageRecord :=
  stage_defs.map (fun d => ⟨d.1, d.2, "pending".toList, [], [], 0, []⟩)

/-- `PipelineTracker._find` locates the first record with the given number;
the mutating operations update that record in place. -/
def update_first (stages : List StageRecord) (n : Int)
    (f : StageRecord → StageRecord) : List StageRecord :=
  match stages with
  | [] => []
  | r :: rest => if r.number = n then f r :: rest else r :: update_first rest n f

/-- `stage_start(n)` at wall-clock time `now`. -/
def stage_start (stages : List StageRecord) (n : Int) (now : List Char) :
    List StageRecord :=
  update_first stages n (fun r => { r with status := "running".toList, started_at := now })

/-- `stage_complete(n, notes)` at time `now`; `dur` is the rounded duration
the datetime arithmetic yields, applied only when the record has a start
time, exactly as in the source. -/
def stage_complete (stages : List StageRecord) (n : Int) (now : List Char)
    (dur : Nat) (notes : List Char) : List StageRecord :=
  update_first stages n (fun r =>
    let r1 := { r with status := "completed".toList, completed_at := now }
    let r2 := if r1.started_at ≠ [] then { r1 with duration_ts := dur } else r1
    if notes ≠ [] then { r2 with notes := notes } else r2)

/-- `stage_failed(n, error)` at time `now`. -/
def stage_failed (stages : List StageRecord) (n : Int) (now err : List Char) :
    List StageRecord :=
  update_first stages n (fun r =>
    { r with status := "failed".toList, completed_at := now, notes := err.take 200 })

/-- Direct `rec.status = "completed"` writes the orchestrators perform on
resume, before `tracker.start()`. -/
def mark_completed (stages : List StageRecord) (n : Int) : List StageRecord :=
  update_first stages n (fun r => { r with status := "completed".toList })

/-- Tracker stage lists whose records were set by `define_stages` and then
mutated only through the stage operations above. -/
inductive Reachable : List StageRecord → Prop where
  | init (stage_defs : List (Int × List Char)) : Reachable (define_stages stage_defs)
  | start (st : List StageRecord) (n : Int) (now : List Char) :
      Reachable st → Reachable (stage_start st n now)
  | complete (st : List StageRecord) (n : Int) (now : List Char) (dur : Nat)
      (notes : List Char) : Reachable st → Reachable (stage_complete st n now dur notes)
  | failed (st : List StageRecord) (n : Int) (now err : List Char) :
      Reachable st → Reachable (stage_failed st n now err)
  | mark (st : List StageRecord) (n : Int) :
      Reachable st → Reachable (mark_completed st n)

instance : DecidableRel (fun a b : StageRecord => a.number ≤ b.number) :=
  fun a b => Int.decLe a.number b.number

instance : IsTotal StageRecord (fun a b : StageRecord => a.number ≤ b.number) :=
  ⟨fun a b => Int.le_total a.number b.number⟩

instance : IsTrans StageRecord (fun a b : StageRecord => a.number ≤ b.number) :=
  ⟨fun _ _ _ => Int.le_trans⟩

/-- Embedding of `sorted(self.stages, key=lambda s: s.number)`.  Python uses a
stable sort; insertion sort returns the same list whenever the keys are
distinct, which the round-trip theorem assumes. -/
def sortStages (stages : List StageRecord) : List StageRecord :=
  stages.insertionSort (fun a b => a.number ≤ b.number)

def activeStatuses : List (List Char) :=
  ["pending".toList, "running".toList, "failed".toList]

/-- The scan inside `next_stage` over the sorted records. -/
def findNext : List StageRecord → Int
  | [] => -1
  | r :: rest => if r.status ∈ activeStatuses then r.number else findNext rest

/-- `PipelineTracker.next_stage`. -/
def next_stage (stages : List StageRecord) : Int :=
  findNext (sortStages stages)

/-- `PipelineTracker.last_completed_stage`. -/
def last_completed_stage (stages : List StageRecord) : Int :=
  let completed := (stages.filter (fun s => s.status = "completed".toList)).map (·.number)
  match completed.max? with
  | some m => m
  | none => 0

/-! ### The progress.md text format -/

def emdash : List Char := ['—']

def twoDigitVal (a b : Char) : Nat := 10 * (a.toNat - 48) + (b.toNat - 48)

/-- Shape test for the timestamps `_iso_now` writes
("YYYY-MM-DDTHH:MM:SSZ" with in-range fields).  `datetime.fromisoformat`
accepts further formats and enforces exact calendar ranges; both are outside
the model, which the round-trip theorem sidesteps by only constraining the
rendered cell. -/
def isCanonicalIso (l : List Char) : Bool :=
  match l with
  | [y1, y2, y3, y4, s1, mo1, mo2, s2, d1, d2, t, h1, h2, c1, mi1, mi2, c2, se1, se2, z] =>
    y1.isDigit && y2.isDigit && y3.isDigit && y4.isDigit && s1 == '-' &&
    mo1.isDigit && mo2.isDigit && s2 == '-' && d1.isDigit && d2.isDigit &&
    t == 'T' && h1.isDigit && h2.isDigit && c1 == ':' && mi1.isDigit &&
    mi2.isDigit && c2 == ':' && se1.isDigit && se2.isDigit && z == 'Z' &&
    decide (1 ≤ twoDigitVal mo1 mo2) && decide (twoDigitVal mo1 mo2 ≤ 12) &&
    decide (1 ≤ twoDigitVal d1 d2) && decide (twoDigitVal d1 d2 ≤ 31) &&
    decide (twoDigitVal h1 h2 ≤ 23) && decide (twoDigitVal mi1 mi2 ≤ 59) &&
    decide (twoDigitVal se1 se2 ≤ 59)
  | _ => false

/-- Embedding of `_short_time`: empty → em dash; a parseable timestamp →
its HH:MM:SS part; anything else is returned unchanged. -/
def shortTime (iso : List Char) : List Char :=
  if iso = [] then emdash
  else if isCanonicalIso iso then (iso.drop 11).take 8
  else iso

/-- The Duration cell: `f"{duration_s}s"` when the float is nonzero, an em
dash otherwise. -/
def durChars (t : Nat) : List Char :=
  if t = 0 then emdash
  else natDigits (t / 10) ++ '.' :: natDigits (t % 10) ++ ['s']

/-- One row of the stage table. -/
def rowLine (r : StageRecord) : List Char :=
  "| ".toList ++ intChars r.number ++ " | ".toList ++ r.name ++
    " | ".toList ++ r.status ++ " | ".toList ++ shortTime r.started_at ++
    " | ".toList ++ shortTime r.completed_at ++ " | ".toList ++
    durChars r.duration_ts ++ " | ".toList ++ r.notes ++ " |".toList

/-- The lines `_render_markdown` joins with newlines. -/
def renderLines (t : PipelineTracker) : List (List Char) :=
  ["# Pipeline Progress".toList,
   [],
   "- **Pipeline**: ".toList ++ t.pipeline_name,
   "- **Status**: ".toList ++ t.status,
   "- **Started**: ".toList ++ t.started_at,
   "- **Prompt**: ".toList ++ t.prompt.take 200,
   [],
   "## Stages".toList,
   [],
   "| # | Stage | Status | Started | Completed | Duration | Notes |".toList,
   "|---|-------|--------|---------|-----------|----------|-------|".toList] ++
  (sortStages t.stages).map rowLine ++
  [[],
   "## Resume Info".toList,
   [],
   "Last completed stage: ".toList ++ intChars (last_completed_stage t.stages),
   "Next stage to run: ".toList ++ intChars (next_stage t.stages)]

/-- `PipelineTracker._render_markdown`. -/
def render_markdown (t : PipelineTracker) : List Char :=
  ['\n'].intercalate (renderLines t)

/-- Everything after the first colon of a line
(Python `line.split(":", 1)[1]`). -/
def afterColon (l : List Char) : List Char :=
  (l.dropWhile (fun c => c != ':')).drop 1

/-- The metadata pass of `_parse_markdown`, one line at a time. -/
def metaStep (t : PipelineTracker) (l : List Char) : PipelineTracker :=
  if "- **Pipeline**:".toList.isPrefixOf l then
    { t with pipeline_name := trimChars (afterColon l) }
  else if "- **Status**:".toList.isPrefixOf l then
    { t with status := trimChars (afterColon l) }
  else if "- **Started**:".toList.isPrefixOf l then
    { t with started_at := trimChars (afterColon l) }
  else if "- **Prompt**:".toList.isPrefixOf l then
    { t with prompt := trimChars (afterColon l) }
  else t

/-- Digit-list value, allowing the empty integer/fraction parts Python
`float` accepts around the dot. -/
def digitsValD (l : List Char) : Option Nat :=
  if l.all (·.isDigit) then
    some (l.foldl (fun acc c => 10 * acc + (c.toNat - 48)) 0)
  else none

/-- Value in tenths of the digits-and-dots group the duration regex captured.
A group `float()` would reject (several dots, lone dot) or that carries more
than one fractional digit is not produced by the renderer and is modelled as
no value. -/
def decTenths (pre : List Char) : Option Nat :=
  match pre.splitOn '.' with
  | [i] => (digitsValD i).map (· * 10)
  | [i, f] =>
    match f with
    | [] => (digitsValD i).map (· * 10)
    | [d] => (digitsValD i).map (fun n => n * 10 + (d.toNat - 48))
    | _ => none
  | _ => none

/-- Duration of a parsed row: em dash or a regex match of `([0-9.]+)s` at the
start of the cell; otherwise the dataclass default 0. -/
def durParse (l : List Char) : Nat :=
  if l = emdash then 0
  else
    let pre := l.takeWhile (fun c => c.isDigit || c == '.')
    if pre ≠ [] && (l.drop pre.length).head? == some 's' then
      match decTenths pre with
      | some t => t
      | none => 0
    else 0

/-- Cells of a table row: split on pipes, strip, drop empties. -/
def parseRowCells (s : List Char) : List (List Char) :=
  ((s.splitOn '|').map trimChars).filter (· ≠ [])

/-- One stage-table row of `_parse_markdown`; `none` when the row is skipped
(too few cells or a non-integer ordinal). -/
def parseRow (s : List Char) : Option StageRecord :=
  let parts := parseRowCells s
  if parts.length ≥ 6 then
    match intParse (parts.getD 0 []) with
    | none => none
    | some n =>
      some ⟨n, parts.getD 1 [], parts.getD 2 [], [], [],
            durParse (parts.getD 5 []),
            if parts.length > 6 then parts.getD 6 [] else []⟩
  else none

/-- The table pass of `_parse_markdown`: state is (in_table, rows so far). -/
def rowsStep (st : Bool × List StageRecord) (l : List Char) :
    Bool × List StageRecord :=
  let s := trimChars l
  if "| # |".toList.isPrefixOf s then (true, st.2)
  else if "|---|".toList.isPrefixOf s then st
  else if st.1 && "|".toList.isPrefixOf s then (true, st.2 ++ (parseRow s).toList)
  else if st.1 then (false, st.2)
  else st

/-- `PipelineTracker._parse_markdown` (the constructed tracker starts from
the dataclass defaults, status "pending"). -/
def parse_markdown (content : List Char) : PipelineTracker :=
  let ls := content.splitOn '\n'
  let t1 := ls.foldl metaStep ⟨[], [], "pending".toList, [], []⟩
  { t1 with stages := (ls.foldl rowsStep (false, [])).2 }

/-! ## GenericOrchestrator.run, resume path
(src/slima_agents/pipeline/orchestrator.py)

The remote-store and worker effects of one `run(prompt, resume_book, ...)`
call are embedded as an event trace.  Stage definitions keep only ordinal and
name: the instruction/message/tool fields are prompt text that never affects
control flow.  Tracker persistence writes, context snapshots, book-structure
injection and console/emitter output are bookkeeping and are not traced. -/

structure StageDefinitionM where
  number : Int
  name : List Char
deriving DecidableEq

structure ValidationDefinitionM where
  number : Int
deriving DecidableEq

structure PipelinePlanM where
  genre : List Char
  stages : List StageDefinitionM
  validation : Option ValidationDefinitionM
  polish_stage : Option StageDefinitionM
deriving DecidableEq

instance : DecidableRel (fun a b : StageDefinitionM => a.number ≤ b.number) :=
  fun a b => Int.decLe a.number b.number

instance : IsTotal StageDefinitionM (fun a b : StageDefinitionM => a.number ≤ b.number) :=
  ⟨fun a b => Int.le_total a.number b.number⟩

instance : IsTrans StageDefinitionM (fun a b : StageDefinitionM => a.number ≤ b.number) :=
  ⟨fun _ _ _ => Int.le_trans⟩

/-- `sorted(plan.stages, key=lambda s: s.number)`. -/
def sortDefs (l : List StageDefinitionM) : List StageDefinitionM :=
  l.insertionSort (fun a b => a.number ≤ b.number)

inductive RunEvent where
  | createBook
  | createPlanFile
  | createOverviewFile
  | execPlanning
  | execStage (n : Int)
  | execValidation (n : Int)
  | execPolish (n : Int)
deriving DecidableEq

/-- `_setup_book`: the remote book is created only when no token was carried
in; the plan JSON and concept overview are then written. -/
def setupBookEvents (book_token : List Char) : List RunEvent :=
  (if book_token = [] then [RunEvent.createBook] else []) ++
    [RunEvent.createPlanFile, RunEvent.createOverviewFile]

def valDefs (ov : Option ValidationDefinitionM) : List (Int × List Char) :=
  match ov with
  | some v => [(v.number, "validation".toList)]
  | none => []

def polDefs (os : Option StageDefinitionM) : List (Int × List Char) :=
  match os with
  | some s => [(s.number, "polish".toList)]
  | none => []

/-- The stage defs `_create_tracker` derives from a plan. -/
def trackerStageDefs (p : PipelinePlanM) : List (Int × List Char) :=
  [((1 : Int), "planning".toList), (2, "book_setup".toList)] ++
    (sortDefs p.stages).map (fun s => (s.number, s.name)) ++
    valDefs p.validation ++ polDefs p.polish_stage

/-- Validation segment of the trace: the super-stage runs iff its ordinal is
at or after the resume point. -/
def valEvents (ov : Option ValidationDefinitionM) (resume_from : Int) : List RunEvent :=
  match ov with
  | some v =>
    if resume_from ≤ v.number then [RunEvent.execValidation v.number] else []
  | none => []

/-- Polish segment of the trace. -/
def polEvents (os : Option StageDefinitionM) (resume_from : Int) : List RunEvent :=
  match os with
  | some s =>
    if resume_from ≤ s.number then [RunEvent.execPolish s.number] else []
  | none => []

/-- The stage-execution part of the `run` trace: each plan stage with ordinal
at or after the resume point, in ascending ordinal order, then the validation
super-stage, then the polish stage, each gated by the same resume test. -/
def execEvents (p : PipelinePlanM) (resume_from : Int) : List RunEvent :=
  ((sortDefs p.stages).filter (fun s => resume_from ≤ s.number)).map
    (fun s => RunEvent.execStage s.number) ++
  valEvents p.validation resume_from ++
  polEvents p.polish_stage resume_from

def valNums (ov : Option ValidationDefinitionM) : List Int :=
  match ov with
  | some v => [v.number]
  | none => []

def polNums (os : Option StageDefinitionM) : List Int :=
  match os with
  | some s => [s.number]
  | none => []

/-- Ordinals a plan declares beyond the planning/book_setup stages, in the
order `_create_tracker` records them. -/
def planNums (p : PipelinePlanM) : List Int :=
  (sortDefs p.stages).map (fun s => s.number) ++
    valNums p.validation ++ polNums p.polish_stage

/-- Embedding of `GenericOrchestrator.run` invoked with a non-empty
`resume_book`: `trackerStages` is the stage list of the persisted tracker
`_handle_resume` parsed (none when no progress file was found), and
`planFromBook` / `plannerResult` script the plan loaded from the book and the
outcome a planning stage would produce.  The trace lists the remote book/plan
writes and the stage executions; an `Except.error` is the RuntimeError the
method raises. -/
def runResume (resume_book : List Char) (trackerStages : Option (List StageRecord))
    (planFromBook : Option PipelinePlanM) (plannerResult : Option PipelinePlanM) :
    Except (List Char) (List RunEvent) :=
  let resume_from : Int :=
    match trackerStages with
    | some st => next_stage st
    | none => 1
  if resume_from = -1 then .ok []
  else
    let planningRan := planFromBook.isNone && decide (resume_from ≤ 1)
    let plan := if planningRan then plannerResult else planFromBook
    match plan with
    | none =>
      if planningRan then
        .error "GenericPlannerAgent failed to produce a valid plan".toList
      else
        .error "No plan available (planning stage was skipped but no plan found)".toList
    | some p =>
      .ok ((if planningRan then [RunEvent.execPlanning] else []) ++
        (if resume_from ≤ 2 then setupBookEvents resume_book else []) ++
        execEvents p resume_from)

/-- Ordinal carried by a stage-execution event. -/
def eventNum : RunEvent → Int
  | RunEvent.execStage n => n
  | RunEvent.execValidation n => n
  | RunEvent.execPolish n => n
  | _ => 0

def isExecEvent : RunEvent → Bool
  | RunEvent.execStage _ => true
  | RunEvent.execValidation _ => true
  | RunEvent.execPolish _ => true
  | _ => false

/-- The integers `lo, lo+1, ..., lo+len-1`. -/
def intRange (lo : Int) (len : Nat) : List Int :=
  (List.range len).map (fun (k : Nat) => lo + (k : Int))

/-- The four statuses the tracker operations can store. -/
def StatusOK (r : StageRecord) : Prop :=
  r.status ∈ ["pending".toList, "running".toList, "completed".toList, "failed".toList]

/-- A concrete reachable tracker state for the next_stage witness: stages 1
and 2 defined, stage 1 started and completed. -/
def c1Stages : List StageRecord :=
  stage_complete
    (stage_start (define_stages [(1, "research".toList), (2, "writing".toList)])
      1 "2024-01-02T03:04:05Z".toList)
    1 "2024-01-02T03:04:56Z".toList 512 []

/-- Concrete plan for the resume witness: writer stages 3..9, validation 10,
polish 11. -/
def c3Plan : PipelinePlanM :=
  ⟨"fantasy".toList,
   [⟨3, "outline".toList⟩, ⟨4, "worldbuilding".toList⟩, ⟨5, "characters".toList⟩,
    ⟨6, "act1".toList⟩, ⟨7, "act2".toList⟩, ⟨8, "act3".toList⟩,
    ⟨9, "epilogue".toList⟩],
   some ⟨10⟩, some ⟨11, "polish".toList⟩⟩

/-- One persisted stage record with the given ordinal, name, status. -/
def c3Stage (n : Int) (name status : List Char) : StageRecord :=
  ⟨n, name, status, [], [], 0, []⟩

/-- The persisted tracker of the resume witness: stages 1-5 completed,
6-11 pending. -/
def c3Stages : List StageRecord :=
  [c3Stage 1 "planning".toList "completed".toList,
   c3Stage 2 "book_setup".toList "completed".toList,
   c3Stage 3 "outline".toList "completed".toList,
   c3Stage 4 "worldbuilding".toList "completed".toList,
   c3Stage 5 "characters".toList "completed".toList,
   c3Stage 6 "act1".toList "pending".toList,
   c3Stage 7 "act2".toList "pending".toList,
   c3Stage 8 "act3".toList "pending".toList,
   c3Stage 9 "epilogue".toList "pending".toList,
   c3Stage 10 "validation".toList "pending".toList,
   c3Stage 11 "polish".toList "pending".toList]

/-- One padded cell of a stage-table row: the cell text between two pipe
separators. -/
def padCell (x : List Char) : List Char := ' ' :: x ++ [' ']

/-- The stage record `_parse_markdown` reconstructs from the rendered row of
`r`: ordinal, name, status and duration survive; timestamps are not parsed
back. -/
def parsedRec (r : StageRecord) : StageRecord :=
  ⟨r.number, r.name, r.status, [], [], r.duration_ts, r.notes⟩

/-- The five statuses the data model declares. -/
def statusStrings : List (List Char) :=
  ["pending".toList, "running".toList, "completed".toList, "failed".toList,
   "skipped".toList]

/-- A table cell that survives the pipe-separated layout: non-empty,
whitespace-trimmed, and free of pipes and newlines. -/
def cellSafe (l : List Char) : Prop :=
  l ≠ [] ∧ trimChars l = l ∧ '|' ∉ l ∧ '\n' ∉ l

instance (l : List Char) : Decidable (cellSafe l) := by
  unfold cellSafe
  infer_instance

/-- Stage records whose rendered row parses back: clean name and notes, a
declared status, and timestamps whose HH:MM:SS rendering is a clean cell
(timestamps written by `_iso_now`, or empty, always are). -/
def CleanStage (r : StageRecord) : Prop :=
  cellSafe r.name ∧ r.status ∈ statusStrings ∧ (r.notes = [] ∨ cellSafe r.notes) ∧
    cellSafe (shortTime r.started_at) ∧ cellSafe (shortTime r.completed_at)

instance (r : StageRecord) : Decidable (CleanStage r) := by
  unfold CleanStage
  infer_instance

/-- Trackers whose rendered progress document parses back: single-line
trimmed metadata fields, clean stage rows, and distinct ordinals (Python
`sorted` is stable; with distinct keys the embedded insertion sort renders
the rows in the same order). -/
def CleanTracker (t : PipelineTracker) : Prop :=
  '\n' ∉ t.pipeline_name ∧ trimChars t.pipeline_name = t.pipeline_name ∧
    '\n' ∉ t.status ∧ trimChars t.status = t.status ∧
    '\n' ∉ t.started_at ∧ '\n' ∉ t.prompt ∧
    (t.stages.map StageRecord.number).Nodup ∧
    ∀ r ∈ t.stages, CleanStage r

instance (t : PipelineTracker) : Decidable (CleanTracker t) := by
  unfold CleanTracker
  infer_instance

/-- Counterexample tracker for the round trip: a stage whose name contains a
pipe character. -/
def c2Cex : PipelineTracker :=
  ⟨"p".toList, [], "running".toList, [],
   [⟨1, "a|b".toList, "pending".toList, [], [], 0, []⟩]⟩

/-- A clean tracker for the round-trip witness. -/
def c2Wit : PipelineTracker :=
  ⟨"worldbuild".toList, "Test prompt".toList, "running".toList,
   "2024-01-02T03:04:05Z".toList,
   [⟨1, "research".toList, "completed".toList, "2024-01-02T03:04:05Z".toList,
     "2024-01-02T03:04:56Z".toList, 512, []⟩,
    ⟨2, "writing".toList, "pending".toList, [], [], 0, "note here".toList⟩]⟩

/-! # Theorems -/

theorem worldGet_worldSet_self (s : String) (hs : s ∈ WorldContext.SECTIONS)
    (w : WorldContext) (v : String) : worldGet (worldSet w s v) s = v := by
  simp only [WorldContext.SECTIONS, List.mem_cons, List.not_mem_nil, or_false] at hs
  rcases hs with rfl | rfl | rfl | rfl | rfl | rfl | rfl | rfl | rfl | rfl | rfl | rfl <;> rfl

/-- C8: for every declared section s and value v, write-then-read returns v;
append to an empty section yields exactly v (no leading separator); append to
a section holding non-empty c yields c ++ "\n" ++ v.  Stated for both working
contexts the claim cites, `DynamicContext` and `WorldContext`. -/
theorem context_write_read_append
    (ctx : DynamicContext) (w : WorldContext) (s sw v c : String)
    (hd : s ∈ ctx.allowed_sections) (hw : sw ∈ WorldContext.SECTIONS) :
    ((ctx.write s v).1.read s = v)
    ∧ (ctx.data s = "" → (ctx.append s v).1.read s = v)
    ∧ (ctx.data s = c → c ≠ "" → (ctx.append s v).1.read s = c ++ "\n" ++ v)
    ∧ ((w.write sw v).1.read sw = v)
    ∧ (worldGet w sw = "" → (w.append sw v).1.read sw = v)
    ∧ (worldGet w sw = c → c ≠ "" → (w.append sw v).1.read sw = c ++ "\n" ++ v) := by
  refine ⟨?_, ?_, ?_, ?_, ?_, ?_⟩
  · simp [DynamicContext.write, DynamicContext.read, hd]
  · intro h
    simp [DynamicContext.append, DynamicContext.read, hd, h]
  · intro h hc
    simp [DynamicContext.append, DynamicContext.read, hd, h, hc]
  · simp [WorldContext.write, WorldContext.read, hw, worldGet_worldSet_self sw hw]
  · intro h
    simp [WorldContext.append, WorldContext.read, hw, h, worldGet_worldSet_self sw hw]
  · intro h hc
    simp [WorldContext.append, WorldContext.read, hw, h, hc, worldGet_worldSet_self sw hw]

/-- C8 witness: the theorem applied to the declared section "concept" of a
two-section DynamicContext and the "overview" section of a WorldContext. -/
theorem context_write_read_append_witness :
    "concept" ∈ (DynamicContext.init ["concept", "chapters"]).allowed_sections
    ∧ "overview" ∈ WorldContext.SECTIONS
    ∧ (((DynamicContext.init ["concept", "chapters"]).write "concept" "The crime").1.read
        "concept" = "The crime") :=
  ⟨by decide, by decide,
   (context_write_read_append (DynamicContext.init ["concept", "chapters"])
      {} "concept" "overview" "The crime" "" (by decide) (by decide)).1⟩

/-- C9: WorldContext defines no to_snapshot attribute, so the worldbuild
orchestrator never writes a context snapshot file and swallows the
AttributeError instead of raising. -/
theorem worldbuild_snapshot_never_written :
    saveContextSnapshotWB.writes = [] ∧ saveContextSnapshotWB.raised = none := by
  decide

theorem lookupKey_cons_ne (k x : String) (v : JVal) (d : Snapshot) (h : k ≠ x) :
    lookupKey ((k, v) :: d) x = lookupKey d x := by
  simp [lookupKey, List.find?, h]

/-- C10: to_snapshot always emits the reserved `_allowed_sections` key (as the
head entry) holding the declared section list; from_snapshot with that key
present replaces the declared sections with the incoming list before
restoring the section values; any other unrecognized key is ignored
(prepending it leaves the restored context unchanged). -/
theorem snapshot_reserved_key_roundtrip
    (ctx ctx2 : DynamicContext) (d : Snapshot) (l : List String) (k : String) (v : JVal)
    (hk1 : k ≠ "_allowed_sections") (hk2 : k ≠ "user_prompt") (hkl : k ∉ l)
    (hd : lookupKey d "_allowed_sections" = some (JVal.arr l)) :
    (ctx.to_snapshot.head? = some ("_allowed_sections", JVal.arr ctx.allowed_sections))
    ∧ ((ctx2.from_snapshot d).allowed_sections = l)
    ∧ (∀ s ∈ l, ∀ w, lookupKey d s = some (JVal.str w) →
        (ctx2.from_snapshot d).data s = w)
    ∧ (ctx2.from_snapshot ((k, v) :: d) = ctx2.from_snapshot d) := by
  refine ⟨rfl, ?_, ?_, ?_⟩
  · simp [DynamicContext.from_snapshot, hd]
  · intro s hs w hw
    simp [DynamicContext.from_snapshot, hd, hs, hw]
  · have hall : lookupKey ((k, v) :: d) "_allowed_sections" =
        lookupKey d "_allowed_sections" := lookupKey_cons_ne _ _ _ _ hk1
    have hup : lookupKey ((k, v) :: d) "user_prompt" =
        lookupKey d "user_prompt" := lookupKey_cons_ne _ _ _ _ hk2
    simp only [DynamicContext.from_snapshot, hall, hup, hd]
    congr 1
    funext x
    by_cases hx : x ∈ l
    · have hne : k ≠ x := fun he => hkl (he ▸ hx)
      simp [hx, lookupKey_cons_ne _ _ _ _ hne]
    · simp [hx]

/-- C10 witness: the theorem applied to a concrete snapshot carrying a new
section list, a restorable section value and an unknown key. -/
theorem snapshot_reserved_key_roundtrip_witness :
    ((DynamicContext.init ["a"]).from_snapshot
        [("_allowed_sections", JVal.arr ["b", "book_structure"]),
         ("b", JVal.str "content")]).allowed_sections = ["b", "book_structure"] :=
  (snapshot_reserved_key_roundtrip (DynamicContext.init ["a"]) (DynamicContext.init ["a"])
      [("_allowed_sections", JVal.arr ["b", "book_structure"]), ("b", JVal.str "content")]
      ["b", "book_structure"] "zzz" (JVal.str "ignored")
      (by decide) (by decide) (by decide) (by decide)).2.1

/-- C4 counterexample: when R1 produced an empty session identifier,
`_run_validation` does not fail fast: it raises no error and still issues the
R2 sub-invocation, with the empty resume value. -/
theorem validation_empty_session_not_failed :
    (runValidation ⟨"Done", "Done", false, ""⟩).2 = none
    ∧ (runValidation ⟨"Done", "Done", false, ""⟩).1.map ValidationInvocation.resume_session
        = ["", ""] := by
  decide

/-- C4 amended: the R2 sub-invocation is always issued with `resume_session`
equal to the session identifier R1 returned; when that identifier is empty no
error is raised and R2 simply proceeds with the empty value. -/
theorem validation_r2_resumes_r1_session (r1_result : AgentResult) :
    runValidation r1_result =
      ([⟨"validation_r1", ""⟩, ⟨"validation_r2", r1_result.session_id⟩], none) := rfl

theorem runPhase_foldl_eq_filterMap (outcomes : List (String × MemberOutcome))
    (acc : List AgentResult) :
    outcomes.foldl (fun acc o =>
        match o.2 with
        | MemberOutcome.ok r => acc ++ [r]
        | MemberOutcome.exc _ => acc) acc
      = acc ++ outcomes.filterMap (fun o =>
          match o.2 with
          | MemberOutcome.ok r => some r
          | MemberOutcome.exc _ => none) := by
  induction outcomes generalizing acc with
  | nil => simp
  | cons o rest ih =>
    match h : o.2 with
    | MemberOutcome.ok r => simp [List.foldl_cons, List.filterMap_cons, h, ih]
    | MemberOutcome.exc e => simp [List.foldl_cons, List.filterMap_cons, h, ih]

/-- C5 counterexample: a fanned-out phase whose middle member raises still
returns normally: all three members ran, the two successes are collected, and
no aggregate error is raised to the caller. -/
theorem phase_member_failure_not_raised :
    runPhase [("Cosmology", MemberOutcome.ok ⟨"Done", "Done", false, ""⟩),
              ("Geography", MemberOutcome.exc "boom"),
              ("History", MemberOutcome.ok ⟨"Done2", "Done2", false, ""⟩)]
      = Except.ok (["Cosmology", "Geography", "History"],
          [⟨"Done", "Done", false, ""⟩, ⟨"Done2", "Done2", false, ""⟩])
    ∧ ¬ ∃ e, runPhase [("Cosmology", MemberOutcome.ok ⟨"Done", "Done", false, ""⟩),
              ("Geography", MemberOutcome.exc "boom"),
              ("History", MemberOutcome.ok ⟨"Done2", "Done2", false, ""⟩)]
          = Except.error e := by
  constructor
  · rfl
  · rintro ⟨e, he⟩
    simp [runPhase] at he

/-- C5 amended: every sibling member of a fanned-out phase runs to completion
even when one raises; the per-member failure is reported and dropped, the
phase returns the successful results of all members in order, and the
aggregate error is never raised to the caller. -/
theorem phase_runs_all_members (outcomes : List (String × MemberOutcome)) :
    runPhase outcomes = Except.ok (outcomes.map Prod.fst,
      outcomes.filterMap (fun o =>
        match o.2 with
        | MemberOutcome.ok r => some r
        | MemberOutcome.exc _ => none))
    ∧ ∀ e, runPhase outcomes ≠ Except.error e := by
  constructor
  · simp [runPhase, runPhase_foldl_eq_filterMap]
  · intro e h
    simp [runPhase] at h

theorem range_MAX_RETRIES : List.range' 1 MAX_RETRIES = [1, 2] := by decide

/-- C7: with retry_on_timeout false a timeout on the first attempt never
triggers a second subprocess spawn and is surfaced as the terminal timeout
error; with retry_on_timeout true, at most the fixed bound of two attempts
are spawned, and when both attempts fail (timeout or empty output) the run
raises the last error after exactly two attempts. -/
theorem runner_retry_policy (outcomes : Nat → StreamOutcome) (timeout : Nat) :
    ((outcomes 1).timedOut = true →
      claudeRun false timeout outcomes = (Except.error (timedOutMsg timeout), 1))
    ∧ (claudeRun true timeout outcomes).2 ≤ MAX_RETRIES
    ∧ ((∀ a ∈ [1, 2], (outcomes a).timedOut = true ∨ (outcomes a).text = "") →
      ∃ e, claudeRun true timeout outcomes = (Except.error e, MAX_RETRIES)) := by
  refine ⟨?_, ?_, ?_⟩
  · intro h
    simp [claudeRun, range_MAX_RETRIES, claudeRunFrom, h]
  · simp only [claudeRun, range_MAX_RETRIES, claudeRunFrom]
    split_ifs <;> simp [MAX_RETRIES]
  · intro h
    have h1 := h 1 (by decide)
    have h2 := h 2 (by decide)
    by_cases t1 : (outcomes 1).timedOut <;> by_cases t2 : (outcomes 2).timedOut
    · exact ⟨timedOutMsg timeout,
        by simp [claudeRun, range_MAX_RETRIES, claudeRunFrom, t1, t2, MAX_RETRIES]⟩
    · have e2 : (outcomes 2).text = "" := h2.resolve_left (by simp [t2])
      exact ⟨"Empty result",
        by simp [claudeRun, range_MAX_RETRIES, claudeRunFrom, t1, t2, e2, MAX_RETRIES]⟩
    · have e1 : (outcomes 1).text = "" := h1.resolve_left (by simp [t1])
      exact ⟨timedOutMsg timeout,
        by simp [claudeRun, range_MAX_RETRIES, claudeRunFrom, t1, t2, e1, MAX_RETRIES]⟩
    · have e1 : (outcomes 1).text = "" := h1.resolve_left (by simp [t1])
      have e2 : (outcomes 2).text = "" := h2.resolve_left (by simp [t2])
      exact ⟨"Empty result",
        by simp [claudeRun, range_MAX_RETRIES, claudeRunFrom, t1, t2, e1, e2, MAX_RETRIES]⟩

/-- C7 witness: a worker that always times out, at timeout 900s. -/
theorem runner_retry_policy_witness :
    claudeRun false 900 (fun _ => ⟨"", 0, true⟩) = (Except.error (timedOutMsg 900), 1)
    ∧ ∃ e, claudeRun true 900 (fun _ => ⟨"", 0, true⟩) = (Except.error e, MAX_RETRIES) :=
  ⟨(runner_retry_policy (fun _ => ⟨"", 0, true⟩) 900).1 rfl,
   (runner_retry_policy (fun _ => ⟨"", 0, true⟩) 900).2.2
     (fun _ _ => Or.inl rfl)⟩

theorem timedOutMsg_contains : ∀ timeout : Nat,
    containsSub "Timed out" (timedOutMsg timeout) = true := by
  intro timeout
  apply decide_eq_true
  have h1 : (timedOutMsg timeout).toList
      = "Timed out".toList ++ (" after " ++ toString timeout ++ "s").toList := by
    show (timedOutMsg timeout).data = _
    simp only [timedOutMsg, String.data_append]
    have : "Timed out after ".data = "Timed out".data ++ " after ".data := by decide
    simp [this]
  rw [h1]
  exact List.IsPrefix.isInfix (List.prefix_append _ _)

/-- C6: for an agent whose tool set includes file-writing tools, a timeout of
the worker invocation is not raised as an error: `BaseAgent.run` returns a
partial-success result with the timed_out flag set, and the orchestrator
stage wrapper completes the stage instead of failing the run. -/
theorem write_agent_timeout_tolerated
    (allowed_tools : List String) (timeout : Nat) (outcomes : Nat → StreamOutcome)
    (hwt : hasWriteTools allowed_tools = true)
    (hto : (outcomes 1).timedOut = true ∨
      ((outcomes 1).timedOut = false ∧ (outcomes 1).text = "" ∧
        (outcomes 2).timedOut = true)) :
    agentRun allowed_tools timeout outcomes =
      Except.ok ⟨"(timeout after " ++ toString timeout ++
        "s — partial completion, files already saved)", "", true, ""⟩
    ∧ runWriterStageStatus (agentRun allowed_tools timeout outcomes)
        = Except.ok "completed" := by
  have hrun : (claudeRun false timeout outcomes).1
      = Except.error (timedOutMsg timeout) := by
    rcases hto with h | ⟨h1, h2, h3⟩
    · simp [claudeRun, range_MAX_RETRIES, claudeRunFrom, h]
    · simp [claudeRun, range_MAX_RETRIES, claudeRunFrom, h1, h2, h3]
  have hmain : agentRun allowed_tools timeout outcomes =
      Except.ok ⟨"(timeout after " ++ toString timeout ++
        "s — partial completion, files already saved)", "", true, ""⟩ := by
    simp [agentRun, hrun, timedOutMsg_contains, hwt]
  exact ⟨hmain, by rw [hmain]; rfl⟩

/-- C6 witness: the full write tool set and a worker that times out on its
only attempt. -/
theorem write_agent_timeout_tolerated_witness :
    hasWriteTools SLIMA_MCP_TOOLS = true
    ∧ agentRun SLIMA_MCP_TOOLS 900 (fun _ => ⟨"", 0, true⟩) =
        Except.ok ⟨"(timeout after " ++ toString 900 ++
          "s — partial completion, files already saved)", "", true, ""⟩ :=
  ⟨by decide,
   (write_agent_timeout_tolerated SLIMA_MCP_TOOLS 900 (fun _ => ⟨"", 0, true⟩)
      (by decide) (Or.inl rfl)).1⟩

theorem mem_update_first {st : List StageRecord} {n : Int}
    {f : StageRecord → StageRecord} {r : StageRecord}
    (h : r ∈ update_first st n f) : r ∈ st ∨ ∃ r0 ∈ st, r = f r0 := by
  induction st with
  | nil => simp [update_first] at h
  | cons a rest ih =>
    simp only [update_first] at h
    by_cases ha : a.number = n
    · rw [if_pos ha] at h
      rcases List.mem_cons.mp h with h | h
      · exact Or.inr ⟨a, List.mem_cons_self a rest, h⟩
      · exact Or.inl (List.mem_cons_of_mem a h)
    · rw [if_neg ha] at h
      rcases List.mem_cons.mp h with rfl | h
      · exact Or.inl (List.mem_cons_self r rest)
      · rcases ih h with h1 | ⟨r0, hr0, he⟩
        · exact Or.inl (List.mem_cons_of_mem a h1)
        · exact Or.inr ⟨r0, List.mem_cons_of_mem a hr0, he⟩

theorem reachable_statusOK {st : List StageRecord} (h : Reachable st) :
    ∀ r ∈ st, StatusOK r := by
  induction h with
  | init stage_defs =>
    intro r hr
    simp only [define_stages, List.mem_map] at hr
    obtain ⟨d, _, rfl⟩ := hr
    simp [StatusOK]
  | start st n now _ ih =>
    intro r hr
    simp only [stage_start] at hr
    rcases mem_update_first hr with h1 | ⟨r0, _, rfl⟩
    · exact ih r h1
    · simp [StatusOK]
  | complete st n now dur notes _ ih =>
    intro r hr
    simp only [stage_complete] at hr
    rcases mem_update_first hr with h1 | ⟨r0, _, rfl⟩
    · exact ih r h1
    · simp only [StatusOK]
      split_ifs <;> simp
  | failed st n now err _ ih =>
    intro r hr
    simp only [stage_failed] at hr
    rcases mem_update_first hr with h1 | ⟨r0, _, rfl⟩
    · exact ih r h1
    · simp [StatusOK]
  | mark st n _ ih =>
    intro r hr
    simp only [mark_completed] at hr
    rcases mem_update_first hr with h1 | ⟨r0, _, rfl⟩
    · exact ih r h1
    · simp [StatusOK]

theorem statusOK_active_iff {r : StageRecord} (h : StatusOK r) :
    r.status ∈ activeStatuses ↔ r.status ≠ "completed".toList := by
  simp only [StatusOK, List.mem_cons, List.not_mem_nil, or_false] at h
  rcases h with h | h | h | h <;> rw [h] <;> decide

theorem findNext_all_inactive {l : List StageRecord}
    (h : ∀ r ∈ l, r.status ∉ activeStatuses) : findNext l = -1 := by
  induction l with
  | nil => rfl
  | cons a rest ih =>
    have ha := h a (List.mem_cons_self a rest)
    simp only [findNext, if_neg ha]
    exact ih (fun r hr => h r (List.mem_cons_of_mem a hr))

theorem findNext_min {l : List StageRecord}
    (hsort : l.Sorted (fun a b => a.number ≤ b.number))
    (hex : ∃ r ∈ l, r.status ∈ activeStatuses) :
    ∃ r0 ∈ l, r0.status ∈ activeStatuses ∧ findNext l = r0.number ∧
      ∀ r ∈ l, r.status ∈ activeStatuses → r0.number ≤ r.number := by
  induction l with
  | nil => simp at hex
  | cons a rest ih =>
    by_cases ha : a.status ∈ activeStatuses
    · refine ⟨a, List.mem_cons_self a rest, ha, by simp [findNext, ha], ?_⟩
      intro r hr _
      rcases List.mem_cons.mp hr with rfl | hr
      · exact le_refl _
      · exact (List.sorted_cons.mp hsort).1 r hr
    · obtain ⟨r, hrmem, hract⟩ := hex
      rcases List.mem_cons.mp hrmem with rfl | hrmem
      · exact absurd hract ha
      · obtain ⟨r0, h0mem, h0act, h0find, h0min⟩ :=
          ih (List.sorted_cons.mp hsort).2 ⟨r, hrmem, hract⟩
        refine ⟨r0, List.mem_cons_of_mem a h0mem, h0act,
          by simp [findNext, ha, h0find], ?_⟩
        intro r1 hr1 hact1
        rcases List.mem_cons.mp hr1 with rfl | hr1
        · exact absurd hact1 ha
        · exact h0min r1 hr1 hact1

/-- C1: for every tracker state whose stages were set by define_stages and
mutated through the stage operations, next_stage() returns the smallest
ordinal whose status is not completed, and -1 once every stage is
completed. -/
theorem next_stage_spec (st : List StageRecord) (hreach : Reachable st) :
    ((∀ r ∈ st, r.status = "completed".toList) → next_stage st = -1)
    ∧ ((∃ r ∈ st, r.status ≠ "completed".toList) →
      ∃ r0 ∈ st, r0.status ≠ "completed".toList ∧ next_stage st = r0.number ∧
        ∀ r ∈ st, r.status ≠ "completed".toList → r0.number ≤ r.number) := by
  have hwf := reachable_statusOK hreach
  have hmem : ∀ r : StageRecord, r ∈ sortStages st ↔ r ∈ st :=
    fun r => (List.perm_insertionSort (fun a b => a.number ≤ b.number) st).mem_iff
  have hsort : (sortStages st).Sorted (fun a b => a.number ≤ b.number) :=
    List.sorted_insertionSort (fun a b => a.number ≤ b.number) st
  constructor
  · intro h
    apply findNext_all_inactive
    intro r hr
    have hc := h r ((hmem r).mp hr)
    rw [hc]
    decide
  · intro hex
    obtain ⟨r, hr, hrne⟩ := hex
    have hact : r.status ∈ activeStatuses := (statusOK_active_iff (hwf r hr)).mpr hrne
    obtain ⟨r0, h0mem, h0act, h0find, h0min⟩ :=
      findNext_min hsort ⟨r, (hmem r).mpr hr, hact⟩
    refine ⟨r0, (hmem r0).mp h0mem,
      (statusOK_active_iff (hwf r0 ((hmem r0).mp h0mem))).mp h0act, h0find, ?_⟩
    intro r1 hr1 hne1
    exact h0min r1 ((hmem r1).mpr hr1) ((statusOK_active_iff (hwf r1 hr1)).mpr hne1)

/-- C1 witness: two stages defined, stage 1 started and completed; the
theorem yields next_stage = 2, the smallest non-completed ordinal. -/
theorem next_stage_spec_witness :
    ∃ r0 ∈ c1Stages, r0.status ≠ "completed".toList ∧ next_stage c1Stages = r0.number ∧
      ∀ r ∈ c1Stages, r.status ≠ "completed".toList → r0.number ≤ r.number :=
  (next_stage_spec c1Stages
      (Reachable.complete _ 1 _ 512 []
        (Reachable.start _ 1 _ (Reachable.init _)))).2
    ⟨⟨2, "writing".toList, "pending".toList, [], [], 0, []⟩, by decide, by decide⟩

theorem mem_intRange {n lo : Int} {len : Nat} :
    n ∈ intRange lo len ↔ lo ≤ n ∧ n < lo + (len : Int) := by
  simp only [intRange, List.mem_map, List.mem_range]
  constructor
  · rintro ⟨k, hk, rfl⟩
    omega
  · intro h
    refine ⟨(n - lo).toNat, ?_, ?_⟩ <;> omega

theorem trackerStageDefs_fst (p : PipelinePlanM) :
    (trackerStageDefs p).map Prod.fst = 1 :: 2 :: planNums p := by
  rcases hv : p.validation with _ | v <;> rcases hp : p.polish_stage with _ | s <;>
    simp [trackerStageDefs, planNums, valDefs, polDefs, valNums, polNums, hv, hp]

theorem execStage_nums (l : List StageDefinitionM) (k : Int) :
    ((l.filter (fun s => decide (k ≤ s.number))).map
        (fun s => RunEvent.execStage s.number)).map eventNum
      = (l.map (fun s => s.number)).filter (fun n => decide (k ≤ n)) := by
  induction l with
  | nil => rfl
  | cons a rest ih =>
    by_cases h : k ≤ a.number <;> simp [List.filter_cons, h, eventNum, ih]

theorem valEvents_nums (ov : Option ValidationDefinitionM) (k : Int) :
    (valEvents ov k).map eventNum = (valNums ov).filter (fun n => decide (k ≤ n)) := by
  rcases ov with _ | v
  · rfl
  · by_cases h : k ≤ v.number <;> simp [valEvents, valNums, h, eventNum]

theorem polEvents_nums (os : Option StageDefinitionM) (k : Int) :
    (polEvents os k).map eventNum = (polNums os).filter (fun n => decide (k ≤ n)) := by
  rcases os with _ | s
  · rfl
  · by_cases h : k ≤ s.number <;> simp [polEvents, polNums, h, eventNum]

theorem execEvents_map_eventNum (p : PipelinePlanM) (k : Int) :
    (execEvents p k).map eventNum = (planNums p).filter (fun n => decide (k ≤ n)) := by
  simp only [execEvents, planNums, List.map_append, List.filter_append]
  rw [execStage_nums, valEvents_nums, polEvents_nums]

theorem valEvents_exec (ov : Option ValidationDefinitionM) (k : Int) :
    ∀ e ∈ valEvents ov k, isExecEvent e = true := by
  intro e he
  rcases ov with _ | v
  · simp [valEvents] at he
  · by_cases h : k ≤ v.number
    · simp [valEvents, h] at he
      rw [he]
      rfl
    · simp [valEvents, h] at he

theorem polEvents_exec (os : Option StageDefinitionM) (k : Int) :
    ∀ e ∈ polEvents os k, isExecEvent e = true := by
  intro e he
  rcases os with _ | s
  · simp [polEvents] at he
  · by_cases h : k ≤ s.number
    · simp [polEvents, h] at he
      rw [he]
      rfl
    · simp [polEvents, h] at he

theorem execEvents_all_exec (p : PipelinePlanM) (k : Int) :
    ∀ e ∈ execEvents p k, isExecEvent e = true := by
  intro e he
  simp only [execEvents, List.mem_append] at he
  rcases he with (he | he) | he
  · obtain ⟨s, _, rfl⟩ := List.mem_map.mp he
    rfl
  · exact valEvents_exec _ _ e he
  · exact polEvents_exec _ _ e he

theorem next_stage_resume_six (st : List StageRecord) (p : PipelinePlanM)
    (hnum : st.map StageRecord.number = (trackerStageDefs p).map Prod.fst)
    (hasc : (trackerStageDefs p).map Prod.fst = intRange 1 11)
    (hstat : ∀ r ∈ st, (r.number ≤ 5 → r.status = "completed".toList) ∧
      (6 ≤ r.number → r.status = "pending".toList)) :
    next_stage st = 6 := by
  have hbounds : ∀ r ∈ st, 1 ≤ r.number ∧ r.number ≤ 11 := by
    intro r hr
    have : r.number ∈ st.map StageRecord.number := List.mem_map_of_mem _ hr
    rw [hnum, hasc] at this
    have := mem_intRange.mp this
    omega
  have hmem : ∀ r : StageRecord, r ∈ sortStages st ↔ r ∈ st :=
    fun r => (List.perm_insertionSort (fun a b => a.number ≤ b.number) st).mem_iff
  have hsort : (sortStages st).Sorted (fun a b => a.number ≤ b.number) :=
    List.sorted_insertionSort (fun a b => a.number ≤ b.number) st
  have h6 : (6 : Int) ∈ st.map StageRecord.number := by
    rw [hnum, hasc]
    exact mem_intRange.mpr (by omega)
  obtain ⟨r6, hr6mem, hr6num⟩ := List.mem_map.mp h6
  have hr6stat : r6.status = "pending".toList := (hstat r6 hr6mem).2 (by omega)
  have hr6act : r6.status ∈ activeStatuses := by rw [hr6stat]; decide
  obtain ⟨r0, h0mem, h0act, h0find, h0min⟩ :=
    findNext_min hsort ⟨r6, (hmem r6).mpr hr6mem, hr6act⟩
  have h0st : r0 ∈ st := (hmem r0).mp h0mem
  have h0ge : 6 ≤ r0.number := by
    by_contra hlt
    have hc : r0.status = "completed".toList := (hstat r0 h0st).1 (by omega)
    rw [hc] at h0act
    exact absurd h0act (by decide)
  have h0le : r0.number ≤ 6 := hr6num ▸ h0min r6 ((hmem r6).mpr hr6mem) hr6act
  have : r0.number = 6 := le_antisymm h0le h0ge
  rw [next_stage, h0find, this]

/-- C3: when run is invoked on a resume target whose persisted tracker has
stages 1-5 completed and 6-11 pending (the tracker being the one the plan
declares), the run makes no remote create-book call and executes exactly the
pending ordinals 6..11, in ascending order. -/
theorem resume_skips_completed_stages (st : List StageRecord) (p : PipelinePlanM)
    (resume_book : List Char) (plannerResult : Option PipelinePlanM)
    (hnum : st.map StageRecord.number = (trackerStageDefs p).map Prod.fst)
    (hasc : (trackerStageDefs p).map Prod.fst = intRange 1 11)
    (hstat : ∀ r ∈ st, (r.number ≤ 5 → r.status = "completed".toList) ∧
      (6 ≤ r.number → r.status = "pending".toList)) :
    ∃ evs, runResume resume_book (some st) (some p) plannerResult = Except.ok evs
      ∧ RunEvent.createBook ∉ evs
      ∧ evs.map eventNum = intRange 6 6
      ∧ ∀ e ∈ evs, isExecEvent e = true := by
  have h6 := next_stage_resume_six st p hnum hasc hstat
  have hplan : planNums p = intRange 3 9 := by
    have h := hasc
    rw [trackerStageDefs_fst] at h
    have h2 : intRange 1 11 = 1 :: 2 :: intRange 3 9 := by decide
    rw [h2] at h
    simpa using h
  have hrun : runResume resume_book (some st) (some p) plannerResult
      = Except.ok (execEvents p 6) := by
    simp [runResume, h6]
  refine ⟨execEvents p 6, hrun, ?_, ?_, execEvents_all_exec p 6⟩
  · intro hmem
    have := execEvents_all_exec p 6 _ hmem
    simp [isExecEvent] at this
  · rw [execEvents_map_eventNum, hplan]
    decide

/-- C3 witness: a plan with writer stages 3..9, validation 10, polish 11, and
the persisted tracker with 1-5 completed, 6-11 pending. -/
theorem resume_skips_completed_stages_witness :
    ∃ evs, runResume "bk_resume".toList (some c3Stages) (some c3Plan) none
        = Except.ok evs
      ∧ RunEvent.createBook ∉ evs
      ∧ evs.map eventNum = intRange 6 6
      ∧ ∀ e ∈ evs, isExecEvent e = true :=
  resume_skips_completed_stages c3Stages c3Plan "bk_resume".toList none
    (by decide) (by decide) (by decide)

/-! ### Whitespace-trimming lemmas -/

theorem dropWhile_append_last {p : Char → Bool} {c : Char} (hc : p c = false)
    (xs : List Char) : (xs ++ [c]).dropWhile p = xs.dropWhile p ++ [c] := by
  induction xs with
  | nil => simp [List.dropWhile_cons, hc]
  | cons a t ih => by_cases h : p a <;> simp [List.dropWhile_cons, h, ih]

theorem trimRight_append_last {c : Char} (hc : isWS c = false) (l : List Char) :
    trimRight (l ++ [c]) = l ++ [c] := by
  simp [trimRight, List.reverse_append, List.dropWhile_cons, hc]

theorem trimRight_cons {c : Char} (hc : isWS c = false) (l : List Char) :
    trimRight (c :: l) = c :: trimRight l := by
  simp [trimRight, List.reverse_cons, dropWhile_append_last hc]

theorem trimChars_cons_ws {c : Char} (hc : isWS c = true) (l : List Char) :
    trimChars (c :: l) = trimChars l := by
  simp [trimChars, List.dropWhile_cons, hc]

theorem trimChars_cons {c : Char} (hc : isWS c = false) (l : List Char) :
    trimChars (c :: l) = c :: trimRight l := by
  simp [trimChars, List.dropWhile_cons, hc, trimRight_cons hc]

theorem head_false_of_dropWhile_eq {p : Char → Bool} {a : Char} {l : List Char}
    (h : (a :: l).dropWhile p = a :: l) : p a = false := by
  by_cases h2 : p a
  · exfalso
    rw [List.dropWhile_cons, if_pos h2] at h
    have hle : (l.dropWhile p).length ≤ l.length :=
      (List.dropWhile_suffix p).sublist.length_le
    have hlen := congrArg List.length h
    simp only [List.length_cons] at hlen
    omega
  · simpa using h2

theorem dropWhile_sub_eq {p : Char → Bool} {xs ys : List Char}
    (h : (xs ++ ys).dropWhile p = xs ++ ys) : xs.dropWhile p = xs := by
  cases xs with
  | nil => rfl
  | cons a t =>
    have ha : p a = false := @head_false_of_dropWhile_eq p a (t ++ ys) h
    simp [List.dropWhile_cons, ha]

theorem trim_inv_parts {l : List Char} (h : trimChars l = l) :
    l.dropWhile isWS = l ∧ trimRight l = l := by
  have hsub : List.Sublist (l.dropWhile isWS) l :=
    (List.dropWhile_suffix isWS).sublist
  have hlen1 : (trimRight (l.dropWhile isWS)).length ≤ (l.dropWhile isWS).length := by
    have h0 := (@List.dropWhile_suffix Char
      ((l.dropWhile isWS).reverse) isWS).sublist.length_le
    simpa [trimRight] using h0
  have hlen2 : (l.dropWhile isWS).length ≤ l.length := hsub.length_le
  have heq : trimRight (l.dropWhile isWS) = l := h
  have hd : l.dropWhile isWS = l := by
    apply hsub.eq_of_length
    have := congrArg List.length heq
    omega
  refine ⟨hd, ?_⟩
  rw [hd] at heq
  exact heq

theorem dropWhile_all_false {p : Char → Bool} {l : List Char}
    (h : ∀ c ∈ l, p c = false) : l.dropWhile p = l := by
  cases l with
  | nil => rfl
  | cons a t => simp [List.dropWhile_cons, h a (List.mem_cons_self a t)]

theorem trim_of_all_not_ws {l : List Char} (h : ∀ c ∈ l, isWS c = false) :
    trimChars l = l := by
  have h1 : l.dropWhile isWS = l := dropWhile_all_false h
  have h2 : l.reverse.dropWhile isWS = l.reverse :=
    dropWhile_all_false (fun c hc => h c (List.mem_reverse.mp hc))
  simp [trimChars, h1, trimRight, h2]

theorem trim_pad {x : List Char} (h : trimChars x = x) :
    trimChars (padCell x) = x := by
  obtain ⟨hd, hr⟩ := trim_inv_parts h
  have hws : isWS ' ' = true := by decide
  rw [show padCell x = ' ' :: (x ++ [' ']) from rfl, trimChars_cons_ws hws]
  cases x with
  | nil => decide
  | cons d t =>
    have hdws : isWS d = false := head_false_of_dropWhile_eq hd
    rw [show (d :: t) ++ [' '] = d :: (t ++ [' ']) from rfl, trimChars_cons hdws]
    congr 1
    have hrev : (t.reverse ++ [d]).dropWhile isWS = t.reverse ++ [d] := by
      have h3 := hr
      rw [trimRight, List.reverse_cons] at h3
      have := congrArg List.reverse h3
      simpa using this
    have ht : t.reverse.dropWhile isWS = t.reverse := dropWhile_sub_eq hrev
    simp [trimRight, List.reverse_append, List.dropWhile_cons, ht, hws]

/-! ### Digit-string lemmas -/

theorem digits_props : ∀ c ∈ "0123456789".toList,
    c.isDigit = true ∧ isWS c = false ∧ c ≠ '\n' ∧ c ≠ '|' ∧ c ≠ '.' ∧
      c ≠ 's' ∧ c ≠ '-' ∧ c ≠ '+' ∧ c ≠ '—' ∧ c ≠ '#' := by decide

theorem digitChar_mem_digits {n : Nat} (h : n < 10) :
    Nat.digitChar n ∈ "0123456789".toList := by
  interval_cases n <;> decide

theorem digitChar_toNat {n : Nat} (h : n < 10) : (Nat.digitChar n).toNat - 48 = n := by
  interval_cases n <;> decide

theorem natDigits_lt10 {n : Nat} (h : n < 10) : natDigits n = [Nat.digitChar n] := by
  rw [natDigits]
  exact dif_pos h

theorem natDigits_mem {n : Nat} : ∀ c ∈ natDigits n, c ∈ "0123456789".toList := by
  induction n using Nat.strong_induction_on with
  | _ n ih =>
    intro c hc
    rw [natDigits] at hc
    split_ifs at hc with h
    · simp only [List.mem_singleton] at hc
      exact hc ▸ digitChar_mem_digits h
    · rcases List.mem_append.mp hc with hc | hc
      · exact ih (n / 10) (Nat.div_lt_self (by omega) (by omega)) c hc
      · simp only [List.mem_singleton] at hc
        exact hc ▸ digitChar_mem_digits (Nat.mod_lt n (by omega))

theorem natDigits_ne_nil (n : Nat) : natDigits n ≠ [] := by
  rw [natDigits]
  split_ifs <;> simp

theorem natDigits_val (n : Nat) :
    (natDigits n).foldl (fun acc ch => 10 * acc + (ch.toNat - 48)) 0 = n := by
  induction n using Nat.strong_induction_on with
  | _ n ih =>
    rw [natDigits]
    split_ifs with h
    · simp [digitChar_toNat h]
    · rw [List.foldl_append, ih (n / 10) (Nat.div_lt_self (by omega) (by omega))]
      simp only [List.foldl_cons, List.foldl_nil,
        digitChar_toNat (Nat.mod_lt n (by omega))]
      omega

theorem natDigits_all_digit (n : Nat) : (natDigits n).all (·.isDigit) = true := by
  rw [List.all_eq_true]
  intro c hc
  exact (digits_props c (natDigits_mem c hc)).1

theorem digitsVal_natDigits (n : Nat) : digitsVal (natDigits n) = some n := by
  rw [digitsVal, if_neg (natDigits_ne_nil n), if_pos (natDigits_all_digit n),
    natDigits_val]

theorem digitsValD_natDigits (n : Nat) : digitsValD (natDigits n) = some n := by
  rw [digitsValD, if_pos (natDigits_all_digit n), natDigits_val]

theorem intChars_ne_nil (i : Int) : intChars i ≠ [] := by
  rw [intChars]
  split_ifs
  · simp
  · exact natDigits_ne_nil _

theorem intChars_mem {i : Int} : ∀ c ∈ intChars i,
    c = '-' ∨ c ∈ "0123456789".toList := by
  intro c hc
  rw [intChars] at hc
  split_ifs at hc
  · rcases List.mem_cons.mp hc with rfl | hc
    · exact Or.inl rfl
    · exact Or.inr (natDigits_mem c hc)
  · exact Or.inr (natDigits_mem c hc)

theorem intParse_cons (c : Char) (rest : List Char) :
    intParse (c :: rest) = if c = '-' then (digitsVal rest).map (fun n => -(n : Int))
      else if c = '+' then (digitsVal rest).map (fun n => (n : Int))
      else (digitsVal (c :: rest)).map (fun n => (n : Int)) := rfl

theorem intParse_intChars (i : Int) : intParse (intChars i) = some i := by
  by_cases h : i < 0
  · rw [intChars, if_pos h]
    show intParse ('-' :: natDigits i.natAbs) = some i
    rw [intParse_cons, if_pos rfl, digitsVal_natDigits]
    show some (-(i.natAbs : Int)) = some i
    congr 1
    omega
  · rw [intChars, if_neg h]
    obtain ⟨c, rest, hc⟩ := List.exists_cons_of_ne_nil (natDigits_ne_nil i.natAbs)
    have hcmem : c ∈ natDigits i.natAbs := hc ▸ List.mem_cons_self c rest
    have hprops := digits_props c (natDigits_mem c hcmem)
    rw [hc, intParse_cons, if_neg hprops.2.2.2.2.2.2.1,
      if_neg hprops.2.2.2.2.2.2.2.1, ← hc, digitsVal_natDigits]
    show some ((i.natAbs : Int)) = some i
    congr 1
    omega

/-! ### Duration round-trip lemmas -/

theorem takeWhile_append_all {p : Char → Bool} {xs : List Char} (ys : List Char)
    (h : ∀ c ∈ xs, p c = true) : (xs ++ ys).takeWhile p = xs ++ ys.takeWhile p := by
  induction xs with
  | nil => rfl
  | cons a t ih =>
    simp only [List.cons_append, List.takeWhile_cons,
      h a (List.mem_cons_self a t), if_true]
    rw [ih (fun c hc => h c (List.mem_cons_of_mem a hc))]

theorem durParse_durChars (t : Nat) : durParse (durChars t) = t := by
  by_cases h : t = 0
  · subst h
    rfl
  · rw [durChars, if_neg h]
    have h2 : natDigits (t % 10) = [Nat.digitChar (t % 10)] :=
      natDigits_lt10 (Nat.mod_lt t (by omega))
    have hdigit : ∀ c ∈ natDigits (t / 10), (c.isDigit || c == '.') = true := by
      intro c hc
      simp [(digits_props c (natDigits_mem c hc)).1]
    have hpre : (natDigits (t / 10) ++ '.' :: natDigits (t % 10) ++ ['s']).takeWhile
        (fun c => c.isDigit || c == '.')
        = natDigits (t / 10) ++ '.' :: natDigits (t % 10) := by
      rw [show natDigits (t / 10) ++ '.' :: natDigits (t % 10) ++ ['s']
          = natDigits (t / 10) ++ ('.' :: (natDigits (t % 10) ++ ['s'])) by simp,
        takeWhile_append_all _ hdigit]
      simp only [List.takeWhile_cons]
      rw [if_pos (by decide)]
      rw [takeWhile_append_all _ (fun c hc => by
        simp [(digits_props c (natDigits_mem c hc)).1])]
      simp [List.takeWhile_cons]
    have hne : (natDigits (t / 10) ++ '.' :: natDigits (t % 10) ++ ['s']) ≠ emdash := by
      obtain ⟨c, rest, hc⟩ := List.exists_cons_of_ne_nil (natDigits_ne_nil (t / 10))
      rw [hc]
      intro he
      simp only [List.cons_append, emdash, List.cons.injEq] at he
      exact (digits_props c (natDigits_mem c (hc ▸ List.mem_cons_self c rest))).2.2.2.2.2.2.2.2.1 he.1
    have hdrop : (natDigits (t / 10) ++ '.' :: natDigits (t % 10) ++ ['s']).drop
        (natDigits (t / 10) ++ '.' :: natDigits (t % 10)).length = ['s'] := by
      rw [show natDigits (t / 10) ++ '.' :: natDigits (t % 10) ++ ['s']
          = (natDigits (t / 10) ++ '.' :: natDigits (t % 10)) ++ ['s'] by simp]
      exact List.drop_left _ _
    have hinter : natDigits (t / 10) ++ '.' :: natDigits (t % 10)
        = ['.'].intercalate [natDigits (t / 10), natDigits (t % 10)] := by
      simp [List.intercalate, List.intersperse]
    have hsplit : (natDigits (t / 10) ++ '.' :: natDigits (t % 10)).splitOn '.'
        = [natDigits (t / 10), natDigits (t % 10)] := by
      rw [hinter]
      apply List.splitOn_intercalate
      · intro l hl
        rcases List.mem_cons.mp hl with rfl | hl
        · intro hdot
          exact (digits_props _ (natDigits_mem _ hdot)).2.2.2.2.1 rfl
        · simp only [List.mem_singleton] at hl
          subst hl
          intro hdot
          exact (digits_props _ (natDigits_mem _ hdot)).2.2.2.2.1 rfl
      · simp
    have hdec : decTenths (natDigits (t / 10) ++ '.' :: natDigits (t % 10))
        = some t := by
      unfold decTenths
      rw [hsplit, h2]
      change (digitsValD (natDigits (t / 10))).map
        (fun n => n * 10 + ((Nat.digitChar (t % 10)).toNat - 48)) = some t
      rw [digitsValD_natDigits]
      show some ((t / 10) * 10 + ((Nat.digitChar (t % 10)).toNat - 48)) = some t
      rw [digitChar_toNat (Nat.mod_lt t (by omega))]
      congr 1
      omega
    unfold durParse
    rw [if_neg hne]
    simp only [hpre, hdrop, hdec]
    have hcond : (decide (natDigits (t / 10) ++ '.' :: natDigits (t % 10) ≠ []) &&
        (['s'].head? == some 's')) = true := by
      obtain ⟨c, rest, hc⟩ := List.exists_cons_of_ne_nil (natDigits_ne_nil (t / 10))
      rw [hc]
      simp
    rw [if_pos hcond]

/-! ### Row cell safety -/

theorem intChars_not_ws {i : Int} : ∀ c ∈ intChars i, isWS c = false := by
  intro c hc
  rcases intChars_mem c hc with rfl | hmem
  · decide
  · exact (digits_props c hmem).2.1

theorem intChars_trim (i : Int) : trimChars (intChars i) = intChars i :=
  trim_of_all_not_ws intChars_not_ws

theorem intChars_no_pipe {i : Int} : '|' ∉ intChars i := by
  intro hc
  rcases intChars_mem _ hc with h | hmem
  · exact absurd h (by decide)
  · exact (digits_props _ hmem).2.2.2.1 rfl

theorem intChars_no_nl {i : Int} : '\n' ∉ intChars i := by
  intro hc
  rcases intChars_mem _ hc with h | hmem
  · exact absurd h (by decide)
  · exact (digits_props _ hmem).2.2.1 rfl

theorem intChars_cellSafe (i : Int) : cellSafe (intChars i) :=
  ⟨intChars_ne_nil i, intChars_trim i, intChars_no_pipe, intChars_no_nl⟩

theorem durChars_mem {t : Nat} : ∀ c ∈ durChars t,
    c = '—' ∨ c = '.' ∨ c = 's' ∨ c ∈ "0123456789".toList := by
  intro c hc
  rw [durChars] at hc
  split_ifs at hc with h
  · simp only [emdash, List.mem_singleton] at hc
    exact Or.inl hc
  · rw [show natDigits (t / 10) ++ '.' :: natDigits (t % 10) ++ ['s']
        = natDigits (t / 10) ++ ('.' :: (natDigits (t % 10) ++ ['s'])) by simp] at hc
    rcases List.mem_append.mp hc with hc | hc
    · exact Or.inr (Or.inr (Or.inr (natDigits_mem c hc)))
    · rcases List.mem_cons.mp hc with rfl | hc
      · exact Or.inr (Or.inl rfl)
      · rcases List.mem_append.mp hc with hc | hc
        · exact Or.inr (Or.inr (Or.inr (natDigits_mem c hc)))
        · simp only [List.mem_singleton] at hc
          exact Or.inr (Or.inr (Or.inl hc))

theorem durChars_cellSafe (t : Nat) : cellSafe (durChars t) := by
  have hmem := @durChars_mem t
  refine ⟨?_, ?_, ?_, ?_⟩
  · rw [durChars]
    split_ifs with h
    · simp [emdash]
    · simp [natDigits_ne_nil]
  · apply trim_of_all_not_ws
    intro c hc
    rcases hmem c hc with rfl | rfl | rfl | hd
    · decide
    · decide
    · decide
    · exact (digits_props c hd).2.1
  · intro hc
    rcases hmem _ hc with h | h | h | hd
    · exact absurd h (by decide)
    · exact absurd h (by decide)
    · exact absurd h (by decide)
    · exact (digits_props _ hd).2.2.2.1 rfl
  · intro hc
    rcases hmem _ hc with h | h | h | hd
    · exact absurd h (by decide)
    · exact absurd h (by decide)
    · exact absurd h (by decide)
    · exact (digits_props _ hd).2.2.1 rfl

theorem statusStrings_cellSafe : ∀ s ∈ statusStrings, cellSafe s := by decide

theorem mem_padCell {c : Char} {x : List Char} (h : c ∈ padCell x) :
    c = ' ' ∨ c ∈ x := by
  simp only [padCell, List.mem_cons, List.mem_append, List.mem_singleton] at h
  tauto

theorem padCell_no_pipe {x : List Char} (h : '|' ∉ x) : '|' ∉ padCell x := by
  intro hc
  rcases mem_padCell hc with h1 | h1
  · exact absurd h1 (by decide)
  · exact h h1

theorem padCell_no_nl {x : List Char} (h : '\n' ∉ x) : '\n' ∉ padCell x := by
  intro hc
  rcases mem_padCell hc with h1 | h1
  · exact absurd h1 (by decide)
  · exact h h1

/-! ### Row round trip -/

theorem rowLine_pieces (r : StageRecord) :
    rowLine r = ['|'].intercalate
      [[], padCell (intChars r.number), padCell r.name, padCell r.status,
       padCell (shortTime r.started_at), padCell (shortTime r.completed_at),
       padCell (durChars r.duration_ts), padCell r.notes, []] := by
  have e1 : "| ".toList = ['|', ' '] := rfl
  have e2 : " | ".toList = [' ', '|', ' '] := rfl
  have e3 : " |".toList = [' ', '|'] := rfl
  simp [rowLine, padCell, List.intercalate, List.intersperse, e1, e2, e3]

theorem notes_no_pipe {r : StageRecord} (h : r.notes = [] ∨ cellSafe r.notes) :
    '|' ∉ r.notes := by
  rcases h with h | h
  · rw [h]
    simp
  · exact h.2.2.1

theorem splitOn_rowLine (r : StageRecord) (h : CleanStage r) :
    (rowLine r).splitOn '|'
      = [[], padCell (intChars r.number), padCell r.name, padCell r.status,
         padCell (shortTime r.started_at), padCell (shortTime r.completed_at),
         padCell (durChars r.duration_ts), padCell r.notes, []] := by
  obtain ⟨hname, hstatus, hnotes, hst1, hst2⟩ := h
  rw [rowLine_pieces]
  apply List.splitOn_intercalate
  · intro l hl
    simp only [List.mem_cons, List.not_mem_nil, or_false] at hl
    rcases hl with rfl | rfl | rfl | rfl | rfl | rfl | rfl | rfl | rfl
    · simp
    · exact padCell_no_pipe intChars_no_pipe
    · exact padCell_no_pipe hname.2.2.1
    · exact padCell_no_pipe (statusStrings_cellSafe _ hstatus).2.2.1
    · exact padCell_no_pipe hst1.2.2.1
    · exact padCell_no_pipe hst2.2.2.1
    · exact padCell_no_pipe (durChars_cellSafe _).2.2.1
    · exact padCell_no_pipe (notes_no_pipe hnotes)
    · simp
  · simp

theorem parseRowCells_rowLine (r : StageRecord) (h : CleanStage r) :
    parseRowCells (rowLine r)
      = [intChars r.number, r.name, r.status, shortTime r.started_at,
         shortTime r.completed_at, durChars r.duration_ts]
        ++ (if r.notes = [] then [] else [r.notes]) := by
  obtain ⟨hname, hstatus, hnotes, hst1, hst2⟩ := h
  rw [parseRowCells, splitOn_rowLine r ⟨hname, hstatus, hnotes, hst1, hst2⟩]
  simp only [List.map_cons, List.map_nil]
  rw [trim_pad (intChars_trim r.number), trim_pad hname.2.1,
    trim_pad (statusStrings_cellSafe _ hstatus).2.1, trim_pad hst1.2.1,
    trim_pad hst2.2.1, trim_pad (durChars_cellSafe _).2.1]
  have hnil : trimChars ([] : List Char) = [] := rfl
  rcases hnotes with hN | hN
  · rw [hN]
    have hemp : trimChars (padCell []) = [] := by decide
    rw [hemp, if_pos rfl, hnil]
    simp [List.filter_cons, hname.1, (statusStrings_cellSafe _ hstatus).1,
      hst1.1, hst2.1, (durChars_cellSafe r.duration_ts).1,
      intChars_ne_nil r.number]
  · rw [trim_pad hN.2.1, if_neg hN.1, hnil]
    simp [List.filter_cons, hname.1, (statusStrings_cellSafe _ hstatus).1,
      hst1.1, hst2.1, (durChars_cellSafe r.duration_ts).1,
      intChars_ne_nil r.number, hN.1]

theorem parseRow_rowLine (r : StageRecord) (h : CleanStage r) :
    parseRow (rowLine r) = some (parsedRec r) := by
  have hcells := parseRowCells_rowLine r h
  unfold parseRow
  rw [hcells]
  by_cases hN : r.notes = []
  · rw [if_pos hN]
    simp only [List.append_nil]
    rw [if_pos (by simp)]
    simp only [List.getD_cons_zero, List.getD_cons_succ]
    rw [intParse_intChars]
    simp [parsedRec, durParse_durChars, hN]
  · rw [if_neg hN]
    rw [if_pos (by simp)]
    simp only [List.cons_append, List.nil_append, List.getD_cons_zero,
      List.getD_cons_succ]
    rw [intParse_intChars]
    simp [parsedRec, durParse_durChars]

/-! ### The metadata pass over rendered lines -/

theorem metaStep_title (t : PipelineTracker) :
    metaStep t ("# Pipeline Progress".toList) = t := rfl

theorem metaStep_blank (t : PipelineTracker) : metaStep t [] = t := rfl

theorem metaStep_stagesHdr (t : PipelineTracker) :
    metaStep t ("## Stages".toList) = t := rfl

theorem metaStep_tableHdr (t : PipelineTracker) :
    metaStep t
      ("| # | Stage | Status | Started | Completed | Duration | Notes |".toList)
      = t := rfl

theorem metaStep_tableSep (t : PipelineTracker) :
    metaStep t
      ("|---|-------|--------|---------|-----------|----------|-------|".toList)
      = t := rfl

theorem metaStep_resumeHdr (t : PipelineTracker) :
    metaStep t ("## Resume Info".toList) = t := rfl

theorem metaStep_row (t : PipelineTracker) (r : StageRecord) :
    metaStep t (rowLine r) = t := rfl

theorem metaStep_last (t : PipelineTracker) (x : List Char) :
    metaStep t ("Last completed stage: ".toList ++ x) = t := rfl

theorem metaStep_next (t : PipelineTracker) (x : List Char) :
    metaStep t ("Next stage to run: ".toList ++ x) = t := rfl

theorem metaStep_pipeline (t : PipelineTracker) (v : List Char) :
    metaStep t ("- **Pipeline**: ".toList ++ v)
      = { t with pipeline_name := trimChars v } := by
  show { t with pipeline_name := trimChars (' ' :: v) } = _
  rw [trimChars_cons_ws (by decide)]

theorem metaStep_status (t : PipelineTracker) (v : List Char) :
    metaStep t ("- **Status**: ".toList ++ v)
      = { t with status := trimChars v } := by
  show { t with status := trimChars (' ' :: v) } = _
  rw [trimChars_cons_ws (by decide)]

theorem metaStep_started (t : PipelineTracker) (v : List Char) :
    metaStep t ("- **Started**: ".toList ++ v)
      = { t with started_at := trimChars v } := by
  show { t with started_at := trimChars (' ' :: v) } = _
  rw [trimChars_cons_ws (by decide)]

theorem metaStep_prompt (t : PipelineTracker) (v : List Char) :
    metaStep t ("- **Prompt**: ".toList ++ v)
      = { t with prompt := trimChars v } := by
  show { t with prompt := trimChars (' ' :: v) } = _
  rw [trimChars_cons_ws (by decide)]

theorem foldl_metaStep_rows (t : PipelineTracker) (rs : List StageRecord) :
    List.foldl metaStep t (rs.map rowLine) = t := by
  induction rs with
  | nil => rfl
  | cons r rest ih => simp [List.foldl_cons, metaStep_row, ih]

/-! ### The table pass over rendered lines -/

theorem prefix_head {c : Char} {pre l : List Char} (h : (c :: pre) <+: l) :
    l.head? = some c := by
  obtain ⟨t, rfl⟩ := h
  rfl

theorem trim_head_cons {c : Char} (hc : isWS c = false) (l : List Char) :
    (trimChars (c :: l)).head? = some c := by
  rw [trimChars_cons hc]
  rfl

theorem rowsStep_notPipe {l : List Char} (h : (trimChars l).head? ≠ some '|')
    (b : Bool) (acc : List StageRecord) : rowsStep (b, acc) l = (false, acc) := by
  have h1 : ¬((['|', ' ', '#', ' ', '|'] : List Char) <+: (trimChars l)) :=
    fun hp => h (prefix_head hp)
  have h2 : ¬((['|', '-', '-', '-', '|'] : List Char) <+: (trimChars l)) :=
    fun hp => h (prefix_head hp)
  have h3 : ¬((['|'] : List Char) <+: (trimChars l)) :=
    fun hp => h (prefix_head hp)
  cases b <;> simp [rowsStep, h1, h2, h3]

theorem trimRight_eq_self_of_last {l : List Char} {d : Char}
    (hl : l.getLast? = some d) (hdw : isWS d = false) : trimRight l = l := by
  have h1 : l.reverse.head? = some d := by rw [List.head?_reverse, hl]
  cases hrev : l.reverse with
  | nil =>
    rw [hrev] at h1
    simp at h1
  | cons e s =>
    have he : e = d := by
      rw [hrev] at h1
      simpa using h1
    rw [trimRight, hrev, List.dropWhile_cons, if_neg (by simp [he, hdw]),
      ← hrev, List.reverse_reverse]

theorem trim_eq_self_ends {l : List Char} {c d : Char}
    (hh : l.head? = some c) (hcw : isWS c = false)
    (hl : l.getLast? = some d) (hdw : isWS d = false) : trimChars l = l := by
  cases l with
  | nil => simp at hh
  | cons a t =>
    have hac : a = c := by simpa using hh
    have hwa : isWS a = false := by rw [hac, hcw]
    rw [trimChars, List.dropWhile_cons, if_neg (by simp [hwa])]
    exact trimRight_eq_self_of_last hl hdw

theorem rowLine_last (r : StageRecord) : (rowLine r).getLast? = some '|' := by
  unfold rowLine
  rw [List.getLast?_append]
  rfl

theorem trim_rowLine (r : StageRecord) : trimChars (rowLine r) = rowLine r :=
  trim_eq_self_ends rfl (by decide) (rowLine_last r) (by decide)

theorem rowsStep_row (acc : List StageRecord) (r : StageRecord) (h : CleanStage r) :
    rowsStep (true, acc) (rowLine r) = (true, acc ++ [parsedRec r]) := by
  have htrim : trimChars (rowLine r) = rowLine r := trim_rowLine r
  obtain ⟨cN, restN, hcN⟩ := List.exists_cons_of_ne_nil (intChars_ne_nil r.number)
  have hcNne : cN ≠ '#' := by
    rcases intChars_mem cN (hcN ▸ List.mem_cons_self cN restN) with rfl | hd
    · decide
    · exact (digits_props _ hd).2.2.2.2.2.2.2.2.2
  have hshape : rowLine r = '|' :: ' ' :: cN ::
      (restN ++ (" | ".toList ++ r.name ++ " | ".toList ++ r.status ++
        " | ".toList ++ shortTime r.started_at ++ " | ".toList ++
        shortTime r.completed_at ++ " | ".toList ++ durChars r.duration_ts ++
        " | ".toList ++ r.notes ++ " |".toList)) := by
    unfold rowLine
    rw [hcN]
    simp [List.append_assoc]
  have h1 : ¬((['|', ' ', '#', ' ', '|'] : List Char) <+: rowLine r) := by
    rintro ⟨tl, he⟩
    rw [hshape] at he
    simp only [List.cons_append, List.cons.injEq] at he
    exact hcNne he.2.2.1.symm
  have h2 : ¬((['|', '-', '-', '-', '|'] : List Char) <+: rowLine r) := by
    rintro ⟨tl, he⟩
    rw [hshape] at he
    simp only [List.cons_append, List.cons.injEq] at he
    exact absurd he.2.1 (by decide)
  have h3 : (['|'] : List Char) <+: rowLine r := by
    rw [hshape]
    exact ⟨_, rfl⟩
  simp [rowsStep, htrim, h1, h2, h3, parseRow_rowLine r h]

theorem foldl_rowsStep_rows (rs : List StageRecord) (acc : List StageRecord)
    (h : ∀ r ∈ rs, CleanStage r) :
    List.foldl rowsStep (true, acc) (rs.map rowLine)
      = (true, acc ++ rs.map parsedRec) := by
  induction rs generalizing acc with
  | nil => simp
  | cons r rest ih =>
    simp only [List.map_cons, List.foldl_cons]
    rw [rowsStep_row acc r (h r (List.mem_cons_self r rest)),
      ih (acc ++ [parsedRec r]) (fun x hx => h x (List.mem_cons_of_mem r hx))]
    simp

/-! ### Splitting the rendered document back into its lines -/

theorem no_nl_append {a b : List Char} (ha : '\n' ∉ a) (hb : '\n' ∉ b) :
    '\n' ∉ a ++ b := by
  simp only [List.mem_append, not_or]
  exact ⟨ha, hb⟩

theorem take_no_nl {l : List Char} (h : '\n' ∉ l) (n : Nat) : '\n' ∉ l.take n :=
  fun hm => h (List.take_subset n l hm)

theorem rowLine_no_nl (r : StageRecord) (h : CleanStage r) : '\n' ∉ rowLine r := by
  obtain ⟨hname, hstatus, hnotes, hst1, hst2⟩ := h
  have hnotesN : '\n' ∉ r.notes := by
    rcases hnotes with hN | hN
    · rw [hN]
      exact List.not_mem_nil _
    · exact hN.2.2.2
  intro hm
  simp only [rowLine, List.mem_append, or_assoc] at hm
  rcases hm with hm|hm|hm|hm|hm|hm|hm|hm|hm|hm|hm|hm|hm|hm|hm
  · exact absurd hm (by decide)
  · exact intChars_no_nl hm
  · exact absurd hm (by decide)
  · exact hname.2.2.2 hm
  · exact absurd hm (by decide)
  · exact (statusStrings_cellSafe _ hstatus).2.2.2 hm
  · exact absurd hm (by decide)
  · exact hst1.2.2.2 hm
  · exact absurd hm (by decide)
  · exact hst2.2.2.2 hm
  · exact absurd hm (by decide)
  · exact (durChars_cellSafe _).2.2.2 hm
  · exact absurd hm (by decide)
  · exact hnotesN hm
  · exact absurd hm (by decide)

theorem mem_sortStages {r : StageRecord} {l : List StageRecord}
    (h : r ∈ sortStages l) : r ∈ l := by
  rw [sortStages] at h
  exact (List.perm_insertionSort (fun a b => a.number ≤ b.number) l).mem_iff.mp h

theorem renderLines_no_nl (t : PipelineTracker) (h : CleanTracker t) :
    ∀ l ∈ renderLines t, '\n' ∉ l := by
  obtain ⟨hpn, _, hsn, _, hsa, hpr, _, hstg⟩ := h
  intro l hl
  simp only [renderLines, List.mem_append, List.mem_cons, List.mem_map,
    List.not_mem_nil, or_false, or_assoc] at hl
  rcases hl with rfl|rfl|rfl|rfl|rfl|rfl|rfl|rfl|rfl|rfl|rfl|⟨r, hr, rfl⟩|rfl|rfl|rfl|rfl|rfl
  · decide
  · exact List.not_mem_nil _
  · exact no_nl_append (by decide) hpn
  · exact no_nl_append (by decide) hsn
  · exact no_nl_append (by decide) hsa
  · exact no_nl_append (by decide) (take_no_nl hpr 200)
  · exact List.not_mem_nil _
  · decide
  · exact List.not_mem_nil _
  · decide
  · decide
  · exact rowLine_no_nl r (hstg r (mem_sortStages hr))
  · exact List.not_mem_nil _
  · decide
  · exact List.not_mem_nil _
  · exact no_nl_append (by decide) intChars_no_nl
  · exact no_nl_append (by decide) intChars_no_nl

theorem renderLines_ne_nil (t : PipelineTracker) : renderLines t ≠ [] := by
  simp [renderLines]

theorem splitOn_render (t : PipelineTracker) (h : CleanTracker t) :
    (render_markdown t).splitOn '\n' = renderLines t := by
  rw [render_markdown]
  apply List.splitOn_intercalate
  · exact renderLines_no_nl t h
  · exact renderLines_ne_nil t

/-! ### The full metadata fold -/

theorem foldl_metaStep_renderLines (t : PipelineTracker)
    (hp : trimChars t.pipeline_name = t.pipeline_name)
    (hs : trimChars t.status = t.status) :
    List.foldl metaStep ⟨[], [], "pending".toList, [], []⟩ (renderLines t)
      = ⟨t.pipeline_name, trimChars (t.prompt.take 200), t.status,
         trimChars t.started_at, []⟩ := by
  simp only [renderLines, List.foldl_append, List.foldl_cons, List.foldl_nil,
    metaStep_title, metaStep_blank, metaStep_pipeline, metaStep_status,
    metaStep_started, metaStep_prompt, metaStep_stagesHdr, metaStep_tableHdr,
    metaStep_tableSep, metaStep_resumeHdr, metaStep_last, metaStep_next,
    foldl_metaStep_rows]
  rw [hp, hs]

/-! ### The full table fold -/

theorem rowsStep_tableHdr (b : Bool) (acc : List StageRecord) :
    rowsStep (b, acc)
      ("| # | Stage | Status | Started | Completed | Duration | Notes |".toList)
      = (true, acc) := rfl

theorem rowsStep_tableSep (st : Bool × List StageRecord) :
    rowsStep st
      ("|---|-------|--------|---------|-----------|----------|-------|".toList)
      = st := rfl

theorem rowsStep_titleL (b : Bool) (acc : List StageRecord) :
    rowsStep (b, acc) ("# Pipeline Progress".toList) = (false, acc) := by
  apply rowsStep_notPipe
  decide

theorem rowsStep_blankL (b : Bool) (acc : List StageRecord) :
    rowsStep (b, acc) [] = (false, acc) := by
  apply rowsStep_notPipe
  decide

theorem rowsStep_stagesHdrL (b : Bool) (acc : List StageRecord) :
    rowsStep (b, acc) ("## Stages".toList) = (false, acc) := by
  apply rowsStep_notPipe
  decide

theorem rowsStep_resumeHdrL (b : Bool) (acc : List StageRecord) :
    rowsStep (b, acc) ("## Resume Info".toList) = (false, acc) := by
  apply rowsStep_notPipe
  decide

theorem rowsStep_pipelineL (b : Bool) (acc : List StageRecord) (v : List Char) :
    rowsStep (b, acc) ("- **Pipeline**: ".toList ++ v) = (false, acc) := by
  apply rowsStep_notPipe
  have hws : isWS ('-') = false := by decide
  have he : ("- **Pipeline**: ".toList ++ v)
      = '-' :: (" **Pipeline**: ".toList ++ v) := rfl
  rw [he, trim_head_cons hws]
  decide

theorem rowsStep_statusL (b : Bool) (acc : List StageRecord) (v : List Char) :
    rowsStep (b, acc) ("- **Status**: ".toList ++ v) = (false, acc) := by
  apply rowsStep_notPipe
  have hws : isWS ('-') = false := by decide
  have he : ("- **Status**: ".toList ++ v)
      = '-' :: (" **Status**: ".toList ++ v) := rfl
  rw [he, trim_head_cons hws]
  decide

theorem rowsStep_startedL (b : Bool) (acc : List StageRecord) (v : List Char) :
    rowsStep (b, acc) ("- **Started**: ".toList ++ v) = (false, acc) := by
  apply rowsStep_notPipe
  have hws : isWS ('-') = false := by decide
  have he : ("- **Started**: ".toList ++ v)
      = '-' :: (" **Started**: ".toList ++ v) := rfl
  rw [he, trim_head_cons hws]
  decide

theorem rowsStep_promptL (b : Bool) (acc : List StageRecord) (v : List Char) :
    rowsStep (b, acc) ("- **Prompt**: ".toList ++ v) = (false, acc) := by
  apply rowsStep_notPipe
  have hws : isWS ('-') = false := by decide
  have he : ("- **Prompt**: ".toList ++ v)
      = '-' :: (" **Prompt**: ".toList ++ v) := rfl
  rw [he, trim_head_cons hws]
  decide

theorem rowsStep_lastL (b : Bool) (acc : List StageRecord) (v : List Char) :
    rowsStep (b, acc) ("Last completed stage: ".toList ++ v) = (false, acc) := by
  apply rowsStep_notPipe
  have hws : isWS ('L') = false := by decide
  have he : ("Last completed stage: ".toList ++ v)
      = 'L' :: ("ast completed stage: ".toList ++ v) := rfl
  rw [he, trim_head_cons hws]
  decide

theorem rowsStep_nextL (b : Bool) (acc : List StageRecord) (v : List Char) :
    rowsStep (b, acc) ("Next stage to run: ".toList ++ v) = (false, acc) := by
  apply rowsStep_notPipe
  have hws : isWS ('N') = false := by decide
  have he : ("Next stage to run: ".toList ++ v)
      = 'N' :: ("ext stage to run: ".toList ++ v) := rfl
  rw [he, trim_head_cons hws]
  decide

theorem foldl_rowsStep_renderLines (t : PipelineTracker)
    (hstg : ∀ r ∈ t.stages, CleanStage r) :
    List.foldl rowsStep (false, ([] : List StageRecord)) (renderLines t)
      = (false, (sortStages t.stages).map parsedRec) := by
  have hclean : ∀ r ∈ sortStages t.stages, CleanStage r := fun r hr =>
    hstg r (mem_sortStages hr)
  simp only [renderLines, List.foldl_append, List.foldl_cons, List.foldl_nil,
    rowsStep_titleL, rowsStep_blankL, rowsStep_pipelineL, rowsStep_statusL,
    rowsStep_startedL, rowsStep_promptL, rowsStep_stagesHdrL, rowsStep_tableHdr,
    rowsStep_tableSep, rowsStep_resumeHdrL, rowsStep_lastL, rowsStep_nextL,
    foldl_rowsStep_rows (sortStages t.stages) [] hclean]
  simp

/-! ### The round trip -/

/-- C2 (corrected): the claim quantifies over every tracker state, and in that
generality it is false — a stage name holding a pipe character shifts the
parsed cells, so the re-read status differs (see the counterexample theorem).
For trackers whose metadata fields are single-line and trimmed and whose
stage rows are clean table cells (`CleanTracker`), rendering the progress
document and parsing it back preserves the pipeline name, the overall status,
and, stage by stage over the number-sorted records, each stage's ordinal,
status and duration. -/
theorem tracker_render_parse_roundtrip (t : PipelineTracker)
    (h : CleanTracker t) :
    (parse_markdown (render_markdown t)).pipeline_name = t.pipeline_name ∧
    (parse_markdown (render_markdown t)).status = t.status ∧
    (parse_markdown (render_markdown t)).stages.map
        (fun r => (r.number, r.status, r.duration_ts))
      = (sortStages t.stages).map
        (fun r => (r.number, r.status, r.duration_ts)) := by
  obtain ⟨hpn, hpt, hsn, hst, hsa, hpr, hnd, hstg⟩ := h
  have hsplit : (render_markdown t).splitOn '\n' = renderLines t :=
    splitOn_render t ⟨hpn, hpt, hsn, hst, hsa, hpr, hnd, hstg⟩
  have hpm : parse_markdown (render_markdown t)
      = { List.foldl metaStep ⟨[], [], "pending".toList, [], []⟩
            ((render_markdown t).splitOn '\n') with
          stages := (List.foldl rowsStep (false, [])
            ((render_markdown t).splitOn '\n')).2 } := rfl
  rw [hpm, hsplit, foldl_metaStep_renderLines t hpt hst,
    foldl_rowsStep_renderLines t hstg]
  refine ⟨rfl, rfl, ?_⟩
  rw [List.map_map]
  rfl

/-- C2 witness: the round trip at a concrete clean two-stage tracker. -/
theorem tracker_render_parse_roundtrip_witness :
    CleanTracker c2Wit ∧
      ((parse_markdown (render_markdown c2Wit)).pipeline_name
          = c2Wit.pipeline_name ∧
       (parse_markdown (render_markdown c2Wit)).status = c2Wit.status ∧
       (parse_markdown (render_markdown c2Wit)).stages.map
           (fun r => (r.number, r.status, r.duration_ts))
         = (sortStages c2Wit.stages).map
           (fun r => (r.number, r.status, r.duration_ts))) :=
  ⟨by decide, tracker_render_parse_roundtrip c2Wit (by decide)⟩

/-- C2 counterexample: for the tracker `c2Cex`, whose single stage is named
"a|b", rendering the progress document and parsing it back changes the
stage's status — the extra pipe shifts the cells, so the status "pending" is
re-read as "b".  The round trip therefore does not hold for every tracker
state, as the claim asserts. -/
theorem tracker_roundtrip_pipe_cex :
    (parse_markdown (render_markdown c2Cex)).stages.map StageRecord.status
      ≠ (sortStages c2Cex.stages).map StageRecord.status := by
  have hn1 : natDigits 1 = ['1'] := by
    rw [natDigits]
    decide
  have hn0 : natDigits 0 = ['0'] := by
    rw [natDigits]
    decide
  have h1 : intChars (1 : Int) = ['1'] := by
    rw [intChars, if_neg (by decide)]
    exact hn1
  have h0 : intChars (0 : Int) = ['0'] := by
    rw [intChars, if_neg (by decide)]
    exact hn0
  have ha0 : last_completed_stage c2Cex.stages = 0 := by decide
  have hb0 : next_stage c2Cex.stages = 1 := by decide
  have ha : intChars (last_completed_stage c2Cex.stages) = ['0'] := by
    rw [ha0]
    exact h0
  have hb : intChars (next_stage c2Cex.stages) = ['1'] := by
    rw [hb0]
    exact h1
  have hc : sortStages c2Cex.stages
      = [⟨1, "a|b".toList, "pending".toList, [], [], 0, []⟩] := by decide
  have hnum : intChars
      (StageRecord.number ⟨1, "a|b".toList, "pending".toList, [], [], 0, []⟩)
      = ['1'] := h1
  have hrow : rowLine ⟨1, "a|b".toList, "pending".toList, [], [], 0, []⟩
      = "| 1 | a|b | pending | — | — | — |  |".toList := by
    rw [rowLine, hnum]
    decide
  have hlines : renderLines c2Cex
      = ["# Pipeline Progress".toList, [],
         "- **Pipeline**: p".toList,
         "- **Status**: running".toList,
         "- **Started**: ".toList,
         "- **Prompt**: ".toList,
         [], "## Stages".toList, [],
         "| # | Stage | Status | Started | Completed | Duration | Notes |".toList,
         "|---|-------|--------|---------|-----------|----------|-------|".toList,
         "| 1 | a|b | pending | — | — | — |  |".toList,
         [], "## Resume Info".toList, [],
         "Last completed stage: 0".toList,
         "Next stage to run: 1".toList] := by
    rw [renderLines, hc, ha, hb, List.map_cons, List.map_nil, hrow]
    decide
  rw [render_markdown, hlines]
  decide

end SlimaAgents
